import Mathlib

/-!
Shallow embedding of the sudoku constraint-propagation solver `psyduko.py`
(kScale = 3, i.e. a 9×9 grid of 81 cells, candidate values 1..9).

The grid is a list of 81 candidate sets (`Finset ℕ`), one per cell, scanned
row-major.  Python's in-place mutation becomes explicit state passing: every
modifier returns the new grid.  Python set iteration (used when the code takes
"the first" element of a set) is modelled as ascending numeric order, the
deterministic order the spec asks implementers to fix.
-/

set_option maxHeartbeats 4000000
set_option maxRecDepth 8000
set_option linter.unusedVariables false
set_option linter.constructorNameAsVariable false

-- --------------
-- globals
-- --------------

def kScale : Nat := 3

def kScaleSq : Nat := kScale * kScale

def kScaleCube : Nat := kScaleSq * kScale

-- -----------------------------
-- index getters (non-modifying)
-- -----------------------------

/-- `get_row`: all cells in the same row: `range(offset, offset + kScaleSq)`
with `offset = (gridIndex // kScaleSq) * kScaleSq`. -/
def get_row (gridIndex : Nat) : Finset Nat :=
  Finset.Ico ((gridIndex / kScaleSq) * kScaleSq)
    ((gridIndex / kScaleSq) * kScaleSq + kScaleSq)

/-- `get_column`: all cells in the same column:
`range(offset, offset + kScaleSq*kScaleSq, kScaleSq)` with `offset = gridIndex % kScaleSq`. -/
def get_column (gridIndex : Nat) : Finset Nat :=
  (Finset.range kScaleSq).image (fun a => gridIndex % kScaleSq + kScaleSq * a)

/-- `transformFn`: the mirrored grid-index ↔ frame-index transform, built by the
four nested loops of the source (`w`, `z`, `y`, `x` from outer to inner). -/
def transformFn : List Nat :=
  (List.range kScale).flatMap (fun w =>
    (List.range kScale).flatMap (fun z =>
      (List.range kScale).flatMap (fun y =>
        (List.range kScale).map (fun x =>
          x + kScale * z + kScaleSq * y + kScaleCube * w))))

/-- `get_frame_neighbours`: all cells in the same frame, in frame order:
`range(start, start + kScaleSq)` with `start = (frameIndex // kScaleSq) * kScaleSq`. -/
def get_frame_neighbours (frameIndex : Nat) : Finset Nat :=
  Finset.Ico ((frameIndex / kScaleSq) * kScaleSq)
    ((frameIndex / kScaleSq) * kScaleSq + kScaleSq)

/-- `get_neighbours`: all cells in the same frame (box), in grid order:
`{transform[a] : a ∈ get_frame_neighbours(transform[gridIndex])}`. -/
def get_neighbours (gridIndex : Nat) : Finset Nat :=
  (get_frame_neighbours (transformFn.getD gridIndex 0)).image
    (fun a => transformFn.getD a 0)

/-- `get_buddy_remove`: `(buddies, others, removeFrom)` =
`(line ∩ frame, frame \ buddies, line \ buddies)`. -/
def get_buddy_remove (gridIndex : Nat) (getFn : Nat → Finset Nat) :
    Finset Nat × Finset Nat × Finset Nat :=
  let line := getFn gridIndex
  let frame := get_neighbours gridIndex
  let buddies := line ∩ frame
  let others := frame \ buddies
  let removeFrom := line \ buddies
  (buddies, others, removeFrom)

-- --------------
-- set iteration
-- --------------

/-- Iterating a Python set of naturals, modelled in ascending numeric order
(the deterministic order the spec fixes for reproducibility): the members of
`s` listed ascending. -/
def ascList (s : Finset Nat) : List Nat :=
  (List.range (s.fold max 0 id + 1)).filter (fun a => decide (a ∈ s))

-- --------------
-- the grid
-- --------------

/-- The candidate grid: one candidate set per cell (Python: a list of sets). -/
abbrev Grid := List (Finset Nat)

/-- `grid[i]` (out-of-range reads, which the Python code never performs,
default to the empty set). -/
def cell (grid : Grid) (i : Nat) : Finset Nat := grid.getD i ∅

-- --------------
-- smart checkers
-- --------------

/-- `deduce_from_other_values`: if a potential value of this cell is in no other
cell of the relation, the cell must be that value.  The Python code returns the
first such potential in set-iteration order; we fix ascending numeric order. -/
def deduce_from_other_values (grid : Grid) (index : Nat)
    (getFn : Nat → Finset Nat) : Option Nat :=
  let consolidated_other_potentials :=
    ((getFn index).filter (fun i => index ≠ i)).biUnion (fun i => cell grid i)
  (ascList ((cell grid index).filter
    (fun potential => potential ∉ consolidated_other_potentials))).head?

/-- union of the candidate sets over the buddies of `gridIndex` for `getFn` -/
def buddy_values (grid : Grid) (gridIndex : Nat) (getFn : Nat → Finset Nat) : Finset Nat :=
  (get_buddy_remove gridIndex getFn).1.biUnion (fun b => cell grid b)

/-- union of the candidate sets over the others of `gridIndex` for `getFn` -/
def other_values (grid : Grid) (gridIndex : Nat) (getFn : Nat → Finset Nat) : Finset Nat :=
  (get_buddy_remove gridIndex getFn).2.1.biUnion (fun b => cell grid b)

/-- `deduce_from_buddies`: `(remove_values, remove_from)` with
`remove_values = buddy_values − other_values`. -/
def deduce_from_buddies (grid : Grid) (gridIndex : Nat) (getFn : Nat → Finset Nat) :
    Finset Nat × Finset Nat :=
  (buddy_values grid gridIndex getFn \ other_values grid gridIndex getFn,
   (get_buddy_remove gridIndex getFn).2.2)

-- --------------
-- modifiers
-- --------------

/-- the neighbourhood bombed by `bomb`:
`get_neighbours(index).union(get_row(index), get_column(index))`. -/
def bombNbhd (index : Nat) : Finset Nat :=
  get_neighbours index ∪ get_row index ∪ get_column index

/-- Does `bomb` hit its error branch (`value not in grid[index]`)?
The Python code prints an error message and continues; we record the signal. -/
def bomb_inconsistent (grid : Grid) (index value : Nat) : Bool :=
  decide (value ∉ cell grid index)

/-- `bomb`: eliminate `value` from every cell of the row, column and frame of
`index` (`grid[i].discard(value)` for each `i` in the union), then re-instate
the known cell: `grid[index] = {value}`. -/
def bomb (grid : Grid) (index value : Nat) : Grid :=
  ((ascList (bombNbhd index)).foldl
    (fun g i => g.set i ((cell g i).erase value)) grid).set index {value}

/-- `gentle_remove`: just remove `value` from the one cell. -/
def gentle_remove (grid : Grid) (index value : Nat) : Grid :=
  grid.set index ((cell grid index).erase value)

/-- `single_cell_strategy`: fix the cell if `deduce_from_other_values` found a value. -/
def single_cell_strategy (grid : Grid) (gridIndex : Nat)
    (getFn : Nat → Finset Nat) : Grid :=
  match deduce_from_other_values grid gridIndex getFn with
  | some deduced_value => bomb grid gridIndex deduced_value
  | none => grid

/-- `buddy_strategy`: `for v in remove_values: for r in remove_from:
gentle_remove(grid, r, v)`. -/
def buddy_strategy (grid : Grid) (gridIndex : Nat) (getFn : Nat → Finset Nat) : Grid :=
  let p := deduce_from_buddies grid gridIndex getFn
  (ascList p.1).foldl
    (fun g v => (ascList p.2).foldl (fun g2 r => gentle_remove g2 r v) g) grid

-- --------------
-- solution loop
-- --------------

/-- the value unpacked from a singleton candidate set (`[val] = grid[gridIndex]`;
on the singletons it is applied to, `fold max` returns exactly that element) -/
def single_val (s : Finset Nat) : Nat := s.fold max 0 id

/-- the else-branch of the `solve` body for one unsolved cell: the single-cell
strategy for each of row/column/frame, then the buddy strategy for row/column,
in source order. -/
def solveCellElse (grid : Grid) (gridIndex : Nat) : Grid :=
  buddy_strategy
    (buddy_strategy
      (single_cell_strategy
        (single_cell_strategy
          (single_cell_strategy grid gridIndex get_row) gridIndex get_column)
        gridIndex get_neighbours)
      gridIndex get_row)
    gridIndex get_column

/-- the body of `solve` for one cell: count-and-rebomb an already-fixed cell,
otherwise apply the single-cell strategy for row/column/frame and then the
buddy strategy for row/column. -/
def solveCell (grid : Grid) (gridIndex : Nat) : Grid × Nat :=
  if (cell grid gridIndex).card = 1 then
    (bomb grid gridIndex (single_val (cell grid gridIndex)), 1)
  else (solveCellElse grid gridIndex, 0)

/-- the `for gridIndex in range(len(grid))` scan of `solve`, with the running
`numSolved` accumulator -/
def solveGo (grid : Grid) (numSolved : Nat) : List Nat → Grid × Nat
  | [] => (grid, numSolved)
  | i :: rest => solveGo (solveCell grid i).1 (numSolved + (solveCell grid i).2) rest

/-- `solve`: one full propagation pass; returns the final grid and `numSolved`. -/
def solve (grid : Grid) : Grid × Nat := solveGo grid 0 (List.range grid.length)

/-- the `for num_attempts in range(max_attempts)` loop of `loop_solution`,
recursing on the remaining attempt budget -/
def loopGo (grid : Grid) (prev_score : Nat) : Nat → Grid × Bool
  | 0 => (grid, false)
  | attempts + 1 =>
    if prev_score = (solve grid).2 then ((solve grid).1, false)
    else if (solve grid).2 = kScaleSq * kScaleSq then ((solve grid).1, true)
    else loopGo (solve grid).1 (solve grid).2 attempts

/-- `loop_solution`: run passes until solved, stalled, or out of attempts;
returns the final grid and the boolean result (the `verbose` flag only controls
printing in the source and has no effect on the result). -/
def loop_solution (grid : Grid) (max_attempts : Nat) (verbose : Bool) : Grid × Bool :=
  loopGo grid 0 max_attempts

-- --------------
-- grid setup
-- --------------

/-- `default_grid`: 81 cells, each initially holding every potential value
`{r+1 : r ∈ range(kScaleSq)}`. -/
def default_grid : Grid :=
  List.replicate (kScaleSq * kScaleSq) ((Finset.range kScaleSq).image (fun r => r + 1))

/-- `initialise_grid`: bomb in each non-zero seed value. -/
def initialise_grid (seed : List Nat) (grid : Grid) : Grid :=
  (List.range seed.length).foldl
    (fun g s => if seed.getD s 0 ≠ 0 then bomb g s (seed.getD s 0) else g) grid

-- -----------------------------------------------------
-- arithmetic view of the geometry (for reasoning)
-- -----------------------------------------------------

/-- two cell indices lie in the same row -/
abbrev sameRow (i j : Nat) : Prop := j / 9 = i / 9

/-- two cell indices lie in the same column -/
abbrev sameCol (i j : Nat) : Prop := j % 9 = i % 9

/-- two cell indices lie in the same frame (box) -/
abbrev sameBox (i j : Nat) : Prop := j / 27 = i / 27 ∧ j / 3 % 3 = i / 3 % 3

/-- `j` shares a row, column or box with `i` -/
abbrev nbhdA (i j : Nat) : Prop := sameBox i j ∨ sameRow i j ∨ sameCol i j

/-- closed form of the grid-index ↔ frame-index transform (it swaps the two
middle base-3 digits of an index below 81) -/
def tIdx (j : Nat) : Nat := j % 3 + 3 * (j / 9 % 3) + 9 * (j / 3 % 3) + 27 * (j / 27)


-- -----------------------------------------------------
-- observer definitions used to state the claims
-- -----------------------------------------------------

/-- the number of cells whose candidate set has exactly one element at a given
instant (the claim about the return value of `solve` compares against this
count taken at the start of the pass) -/
def solvedAtStart (g : Grid) : Nat :=
  ((List.range g.length).filter (fun i => decide ((cell g i).card = 1))).length

/-- the number of scan positions whose cell is a singleton at the moment the
pass reaches them (cells solved earlier in the same pass included) -/
def solveVisitGo (g : Grid) : List Nat → Nat
  | [] => 0
  | i :: rest =>
    (if (cell g i).card = 1 then 1 else 0) + solveVisitGo (solveCell g i).1 rest

/-- visit-time solved count over a whole pass -/
def solveVisitCount (g : Grid) : Nat := solveVisitGo g (List.range g.length)

/-- the three ways the propagation loop can terminate -/
inductive Outcome where
  | solved
  | stalled
  | exhausted
deriving DecidableEq

/-- `loopGo` instrumented to report which branch terminated the loop
(identical recursion, result value replaced by the termination reason) -/
def loopOutcomeGo (grid : Grid) (prev_score : Nat) : Nat → Grid × Outcome
  | 0 => (grid, Outcome.exhausted)
  | attempts + 1 =>
    if prev_score = (solve grid).2 then ((solve grid).1, Outcome.stalled)
    else if (solve grid).2 = kScaleSq * kScaleSq then ((solve grid).1, Outcome.solved)
    else loopOutcomeGo (solve grid).1 (solve grid).2 attempts

/-- `loop_solution` instrumented with the termination reason -/
def loop_outcome (grid : Grid) (max_attempts : Nat) : Grid × Outcome :=
  loopOutcomeGo grid 0 max_attempts

/-- `single_cell_strategy` instrumented to also report whether the bomb it
fired (if any) hit the inconsistency branch of `bomb` -/
def single_cell_strategyF (grid : Grid) (gridIndex : Nat)
    (getFn : Nat → Finset Nat) : Grid × Bool :=
  match deduce_from_other_values grid gridIndex getFn with
  | some deduced_value =>
    (bomb grid gridIndex deduced_value, bomb_inconsistent grid gridIndex deduced_value)
  | none => (grid, false)

/-- the body of `solve` for one cell, instrumented with an or-accumulated flag
recording whether any `bomb` call hit its inconsistency branch -/
def solveCellF (grid : Grid) (gridIndex : Nat) : Grid × Nat × Bool :=
  if (cell grid gridIndex).card = 1 then
    (bomb grid gridIndex (single_val (cell grid gridIndex)), 1,
     bomb_inconsistent grid gridIndex (single_val (cell grid gridIndex)))
  else
    (buddy_strategy
       (buddy_strategy
         (single_cell_strategyF
           (single_cell_strategyF
             (single_cell_strategyF grid gridIndex get_row).1 gridIndex get_column).1
           gridIndex get_neighbours).1
         gridIndex get_row)
       gridIndex get_column,
     0,
     ((single_cell_strategyF grid gridIndex get_row).2 ||
      (single_cell_strategyF
        (single_cell_strategyF grid gridIndex get_row).1 gridIndex get_column).2 ||
      (single_cell_strategyF
        (single_cell_strategyF
          (single_cell_strategyF grid gridIndex get_row).1 gridIndex get_column).1
        gridIndex get_neighbours).2))

/-- the `solve` scan instrumented with the inconsistency flag -/
def solveGoF (grid : Grid) (numSolved : Nat) (flag : Bool) : List Nat → Grid × Nat × Bool
  | [] => (grid, numSolved, flag)
  | i :: rest =>
    solveGoF (solveCellF grid i).1 (numSolved + (solveCellF grid i).2.1)
      (flag || (solveCellF grid i).2.2) rest

/-- one full propagation pass, instrumented with the inconsistency flag -/
def solveF (grid : Grid) : Grid × Nat × Bool :=
  solveGoF grid 0 false (List.range grid.length)

-- -----------------------------------------------------
-- concrete grids used as test vectors
-- -----------------------------------------------------

/-- a valid completed sudoku assignment (the standard shift pattern) -/
def Lval (i : Nat) : Nat := (3 * (i / 9 % 3) + i / 9 / 3 + i % 9) % 9 + 1

/-- the fully solved grid carrying `Lval` as singleton candidate sets -/
def gSolved : Grid := (List.range 81).map (fun i => {Lval i})

/-- a grid of 81 empty candidate sets -/
def gEmpty : Grid := List.replicate 81 (∅ : Finset Nat)

/-- a grid with cell 0 fixed to 5, cell 1 holding `{5, 6}`, all other cells
empty: cell 1 is narrowed to a singleton by the bomb fired at cell 0 within
the same pass -/
def gC3 : Grid := ((List.replicate 81 (∅ : Finset Nat)).set 0 {5}).set 1 {5, 6}

/-- the candidate sets of a 9×9 grid holding a single given `v` at cell `g`:
`{v}` at `g`, the full range minus `v` on the rest of the neighbourhood of
`g`, the untouched full range on every cell outside it -/
def oneGivenCell (g v j : Nat) : Finset Nat :=
  if j = g then {v}
  else if j < 81 ∧ nbhdA g j then (Finset.Icc 1 9).erase v
  else if j < 81 then Finset.Icc 1 9
  else ∅

-- ----------------------------------------------------
-- basic facts about cells, updates and grid equality
-- ----------------------------------------------------

theorem cell_of_length_le (g : Grid) (j : Nat) (h : g.length ≤ j) : cell g j = ∅ := by
  simp [cell, List.getD_eq_getElem?_getD, List.getElem?_eq_none h]

theorem cell_set (g : Grid) (i j : Nat) (s : Finset Nat) :
    cell (g.set i s) j = if i = j ∧ i < g.length then s else cell g j := by
  simp only [cell, List.getD_eq_getElem?_getD, List.getElem?_set]
  rcases eq_or_ne i j with rfl | hne
  · rcases Nat.lt_or_ge i g.length with h | h
    · simp [h]
    · simp [Nat.not_lt.mpr h, List.getElem?_eq_none h]
  · simp [hne]

theorem grid_ext {g1 g2 : Grid} (hlen : g1.length = g2.length)
    (h : ∀ j, j < g1.length → cell g1 j = cell g2 j) : g1 = g2 := by
  apply List.ext_get?'
  intro n hn
  rw [List.get?_eq_getElem?, List.get?_eq_getElem?]
  have hn1 : n < g1.length := by
    rw [← hlen, sup_idem] at hn
    exact hn
  have hn2 : n < g2.length := hlen ▸ hn1
  have hc := h n hn1
  simp only [cell, List.getD_eq_getElem?_getD, List.getElem?_eq_getElem hn1,
    List.getElem?_eq_getElem hn2, Option.getD_some] at hc
  rw [List.getElem?_eq_getElem hn1, List.getElem?_eq_getElem hn2, hc]

-- --------------
-- ascList facts
-- --------------

theorem mem_ascList {s : Finset Nat} {a : Nat} : a ∈ ascList s ↔ a ∈ s := by
  unfold ascList
  simp only [List.mem_filter, List.mem_range, decide_eq_true_eq]
  refine ⟨fun h => h.2, fun h => ⟨?_, h⟩⟩
  have : a ≤ s.fold max 0 id := (Finset.le_fold_max a).mpr (Or.inr ⟨a, h, le_rfl⟩)
  omega

theorem ascList_eq_nil {s : Finset Nat} (h : s = ∅) : ascList s = [] := by
  subst h; rfl

theorem head?_ascList_mem {s : Finset Nat} {v : Nat}
    (h : (ascList s).head? = some v) : v ∈ s := by
  rcases hl : ascList s with _ | ⟨a, t⟩
  · rw [hl] at h; simp at h
  · rw [hl] at h
    simp only [List.head?_cons, Option.some.injEq] at h
    subst h
    exact mem_ascList.mp (hl ▸ List.mem_cons_self a t)

theorem toFinset_ascList (s : Finset Nat) : (ascList s).toFinset = s := by
  ext a
  rw [List.mem_toFinset, mem_ascList]

-- ----------------------------------
-- the erase fold inside bomb
-- ----------------------------------

theorem cell_set_erase (g : Grid) (i j v : Nat) :
    cell (g.set i ((cell g i).erase v)) j =
      if i = j then (cell g j).erase v else cell g j := by
  rw [cell_set]
  rcases eq_or_ne i j with rfl | hne
  · rcases Nat.lt_or_ge i g.length with h | h
    · simp [h]
    · simp [Nat.not_lt.mpr h, cell_of_length_le g i h]
  · simp [hne]

theorem cell_foldl_erase (v : Nat) (l : List Nat) (g : Grid) (j : Nat) :
    cell (l.foldl (fun g2 i => g2.set i ((cell g2 i).erase v)) g) j =
      if j ∈ l then (cell g j).erase v else cell g j := by
  induction l generalizing g with
  | nil => simp
  | cons i t ih =>
    simp only [List.foldl_cons, List.mem_cons]
    rw [ih, cell_set_erase]
    rcases eq_or_ne i j with rfl | hne
    · simp [Finset.erase_idem]
    · simp [hne, Ne.symm hne]

theorem length_foldl_erase (v : Nat) (l : List Nat) (g : Grid) :
    (l.foldl (fun g2 i => g2.set i ((cell g2 i).erase v)) g).length = g.length := by
  induction l generalizing g with
  | nil => rfl
  | cons i t ih => simp only [List.foldl_cons]; rw [ih, List.length_set]

-- --------------
-- bomb facts
-- --------------

theorem length_bomb (g : Grid) (i v : Nat) : (bomb g i v).length = g.length := by
  unfold bomb
  rw [List.length_set, length_foldl_erase]

theorem cell_bomb (g : Grid) (i v j : Nat) :
    cell (bomb g i v) j =
      if i = j ∧ i < g.length then {v}
      else if j ∈ bombNbhd i then (cell g j).erase v
      else cell g j := by
  unfold bomb
  rw [cell_set, length_foldl_erase, cell_foldl_erase]
  simp only [mem_ascList]

-- -----------------------------------------------------
-- geometry: arithmetic characterisation of the relations
-- -----------------------------------------------------

theorem transformFn_getD : ∀ j < 81, transformFn.getD j 0 = tIdx j := by decide

theorem tIdx_lt (j : Nat) (h : j < 81) : tIdx j < 81 := by unfold tIdx; omega

theorem tIdx_tIdx : ∀ j < 81, tIdx (tIdx j) = j := by decide

theorem tIdx_div9 (j : Nat) : tIdx j / 9 = 3 * (j / 27) + j / 3 % 3 := by
  unfold tIdx; omega

theorem tIdx_div27 (j : Nat) : tIdx j / 27 = j / 27 := by
  unfold tIdx; omega

theorem tIdx_div3_mod3 (j : Nat) : tIdx j / 3 % 3 = j / 9 % 3 := by
  unfold tIdx; omega

theorem mem_get_row {i j : Nat} : j ∈ get_row i ↔ sameRow i j := by
  unfold get_row
  rw [Finset.mem_Ico]
  have h9 : kScaleSq = 9 := rfl
  rw [h9]
  unfold sameRow
  omega

theorem mem_get_column {i j : Nat} : j ∈ get_column i ↔ sameCol i j ∧ j < 81 := by
  unfold get_column
  simp only [Finset.mem_image, Finset.mem_range]
  have h9 : kScaleSq = 9 := rfl
  rw [h9]
  unfold sameCol
  constructor
  · rintro ⟨a, ha, rfl⟩
    omega
  · rintro ⟨hc, hlt⟩
    exact ⟨j / 9, by omega, by omega⟩

theorem mem_get_neighbours {i j : Nat} (hi : i < 81) :
    j ∈ get_neighbours i ↔ sameBox i j ∧ j < 81 := by
  unfold get_neighbours get_frame_neighbours
  rw [transformFn_getD i hi]
  have h9 : kScaleSq = 9 := rfl
  rw [h9]
  simp only [Finset.mem_image, Finset.mem_Ico]
  have hti : tIdx i < 81 := tIdx_lt i hi
  unfold sameBox
  have hq : tIdx i / 9 = 3 * (i / 27) + i / 3 % 3 := tIdx_div9 i
  constructor
  · rintro ⟨a, ⟨ha1, ha2⟩, rfl⟩
    have ha81 : a < 81 := by omega
    rw [transformFn_getD a ha81, tIdx_div27 a, tIdx_div3_mod3 a]
    exact ⟨⟨by omega, by omega⟩, tIdx_lt a ha81⟩
  · rintro ⟨⟨hb1, hb2⟩, hj⟩
    have he : tIdx j / 9 = 3 * (j / 27) + j / 3 % 3 := tIdx_div9 j
    refine ⟨tIdx j, ⟨by omega, by omega⟩, ?_⟩
    rw [transformFn_getD (tIdx j) (tIdx_lt j hj)]
    exact tIdx_tIdx j hj

theorem mem_bombNbhd {i j : Nat} (hi : i < 81) :
    j ∈ bombNbhd i ↔ nbhdA i j ∧ j < 81 := by
  unfold bombNbhd
  simp only [Finset.mem_union, mem_get_neighbours hi, mem_get_row, mem_get_column]
  have hrow : sameRow i j → j < 81 := by
    unfold sameRow
    omega
  unfold nbhdA
  tauto

theorem nbhdA_symm {i j : Nat} (h : nbhdA i j) : nbhdA j i := by
  rcases h with h | h | h
  · exact Or.inl ⟨h.1.symm, h.2.symm⟩
  · exact Or.inr (Or.inl h.symm)
  · exact Or.inr (Or.inr h.symm)

theorem nbhdA_self (i : Nat) : nbhdA i i := Or.inr (Or.inl rfl)

theorem mem_bombNbhd_self {i : Nat} (hi : i < 81) : i ∈ bombNbhd i :=
  (mem_bombNbhd hi).mpr ⟨nbhdA_self i, hi⟩

-- ----------------------------------
-- deduction and strategy facts
-- ----------------------------------

theorem bomb_shrink {g : Grid} {i v : Nat} (hv : v ∈ cell g i) (j : Nat) :
    cell (bomb g i v) j ⊆ cell g j := by
  rw [cell_bomb]
  rcases eq_or_ne i j with rfl | hne
  · rcases Nat.lt_or_ge i g.length with h | h
    · simp only [h, and_true, if_pos rfl]
      exact Finset.singleton_subset_iff.mpr hv
    · simp only [Nat.not_lt.mpr h, and_false, if_false]
      split
      · exact Finset.erase_subset _ _
      · exact Finset.Subset.refl _
  · simp only [hne, false_and, if_false]
    split
    · exact Finset.erase_subset _ _
    · exact Finset.Subset.refl _

theorem deduce_mem {g : Grid} {i v : Nat} {f : Nat → Finset Nat}
    (h : deduce_from_other_values g i f = some v) : v ∈ cell g i := by
  unfold deduce_from_other_values at h
  have := head?_ascList_mem h
  exact (Finset.mem_filter.mp this).1

theorem deduce_eq_none {g : Grid} {i : Nat} {f : Nat → Finset Nat}
    (h : ∀ x ∈ cell g i,
      x ∈ ((f i).filter (fun k => i ≠ k)).biUnion (fun k => cell g k)) :
    deduce_from_other_values g i f = none := by
  simp only [deduce_from_other_values]
  have hempty : (cell g i).filter
      (fun potential =>
        potential ∉ ((f i).filter (fun k => i ≠ k)).biUnion (fun k => cell g k)) = ∅ :=
    Finset.filter_eq_empty_iff.mpr (fun x hx hnot => hnot (h x hx))
  rw [hempty, ascList_eq_nil rfl]
  rfl

theorem length_single_cell (g : Grid) (i : Nat) (f : Nat → Finset Nat) :
    (single_cell_strategy g i f).length = g.length := by
  unfold single_cell_strategy
  rcases h : deduce_from_other_values g i f with _ | v
  · rfl
  · exact length_bomb g i v

theorem single_cell_shrink (g : Grid) (i : Nat) (f : Nat → Finset Nat) (j : Nat) :
    cell (single_cell_strategy g i f) j ⊆ cell g j := by
  unfold single_cell_strategy
  rcases h : deduce_from_other_values g i f with _ | v
  · exact Finset.Subset.refl _
  · exact bomb_shrink (deduce_mem h) j

theorem single_cell_of_none {g : Grid} {i : Nat} {f : Nat → Finset Nat}
    (h : deduce_from_other_values g i f = none) :
    single_cell_strategy g i f = g := by
  unfold single_cell_strategy
  rw [h]

-- ----------------------------------
-- buddy strategy characterisation
-- ----------------------------------

theorem erase_sdiff_comm (s t : Finset Nat) (v : Nat) :
    (s.erase v) \ t = s \ insert v t := by
  ext x
  simp only [Finset.mem_sdiff, Finset.mem_erase, Finset.mem_insert]
  tauto

theorem cell_buddy_fold (rf : Finset Nat) (lv : List Nat) (g : Grid) (r : Nat) :
    cell (lv.foldl
      (fun g v => (ascList rf).foldl (fun g2 k => gentle_remove g2 k v) g) g) r =
      if r ∈ rf then cell g r \ lv.toFinset else cell g r := by
  induction lv generalizing g with
  | nil =>
    simp only [List.foldl_nil, List.toFinset_nil, Finset.sdiff_empty, ite_self]
  | cons v t ih =>
    simp only [List.foldl_cons]
    rw [ih]
    have hinner :
        cell ((ascList rf).foldl (fun g2 k => gentle_remove g2 k v) g) r =
          if r ∈ rf then (cell g r).erase v else cell g r := by
      unfold gentle_remove
      rw [cell_foldl_erase]
      simp only [mem_ascList]
    rw [hinner]
    rcases hr : decide (r ∈ rf) with _ | _
    · have hr2 : r ∉ rf := of_decide_eq_false hr
      simp [hr2]
    · have hr2 : r ∈ rf := of_decide_eq_true hr
      simp only [hr2, if_true, List.toFinset_cons]
      exact erase_sdiff_comm _ _ _

theorem cell_buddy (g : Grid) (i : Nat) (f : Nat → Finset Nat) (r : Nat) :
    cell (buddy_strategy g i f) r =
      if r ∈ (deduce_from_buddies g i f).2 then
        cell g r \ (deduce_from_buddies g i f).1
      else cell g r := by
  unfold buddy_strategy
  rw [cell_buddy_fold]
  simp only [toFinset_ascList]

theorem length_buddy_fold (rf : Finset Nat) (lv : List Nat) (g : Grid) :
    (lv.foldl
      (fun g v => (ascList rf).foldl (fun g2 k => gentle_remove g2 k v) g) g).length =
      g.length := by
  induction lv generalizing g with
  | nil => rfl
  | cons v t ih =>
    simp only [List.foldl_cons]
    rw [ih]
    unfold gentle_remove
    exact length_foldl_erase v (ascList rf) g

theorem length_buddy (g : Grid) (i : Nat) (f : Nat → Finset Nat) :
    (buddy_strategy g i f).length = g.length := by
  unfold buddy_strategy
  exact length_buddy_fold _ _ g

theorem buddy_shrink (g : Grid) (i : Nat) (f : Nat → Finset Nat) (r : Nat) :
    cell (buddy_strategy g i f) r ⊆ cell g r := by
  rw [cell_buddy]
  split
  · exact Finset.sdiff_subset
  · exact Finset.Subset.refl _

-- ----------------------------------
-- solve pass facts
-- ----------------------------------

theorem single_val_singleton (a : Nat) : single_val {a} = a := by
  simp [single_val, Finset.fold_singleton]

theorem solveCell_fst_one {g : Grid} {i : Nat} (h : (cell g i).card = 1) :
    (solveCell g i).1 = bomb g i (single_val (cell g i)) := by
  unfold solveCell
  rw [if_pos h]

theorem solveCell_snd_one {g : Grid} {i : Nat} (h : (cell g i).card = 1) :
    (solveCell g i).2 = 1 := by
  unfold solveCell
  rw [if_pos h]

theorem solveCell_fst_ne {g : Grid} {i : Nat} (h : ¬(cell g i).card = 1) :
    (solveCell g i).1 = solveCellElse g i := by
  unfold solveCell
  rw [if_neg h]

theorem solveCell_snd_ne {g : Grid} {i : Nat} (h : ¬(cell g i).card = 1) :
    (solveCell g i).2 = 0 := by
  unfold solveCell
  rw [if_neg h]

theorem length_solveCellElse (g : Grid) (i : Nat) :
    (solveCellElse g i).length = g.length := by
  unfold solveCellElse
  simp only [length_buddy, length_single_cell]

theorem solveCellElse_def (g : Grid) (i : Nat) :
    solveCellElse g i =
      buddy_strategy
        (buddy_strategy
          (single_cell_strategy
            (single_cell_strategy
              (single_cell_strategy g i get_row) i get_column)
            i get_neighbours)
          i get_row)
        i get_column := rfl

theorem solveCell_snd_le (g : Grid) (i : Nat) : (solveCell g i).2 ≤ 1 := by
  by_cases h : (cell g i).card = 1
  · rw [solveCell_snd_one h]
  · rw [solveCell_snd_ne h]
    omega

theorem length_solveCell (g : Grid) (i : Nat) : (solveCell g i).1.length = g.length := by
  by_cases h : (cell g i).card = 1
  · rw [solveCell_fst_one h]
    exact length_bomb _ _ _
  · rw [solveCell_fst_ne h]
    exact length_solveCellElse g i

-- ----------------------------------
-- membership-level shrink lemmas
-- ----------------------------------

theorem bomb_shrink_mem {g : Grid} {i v : Nat} (hv : v ∈ cell g i) {j x : Nat}
    (hx : x ∈ cell (bomb g i v) j) : x ∈ cell g j := by
  rw [cell_bomb] at hx
  split at hx
  · rename_i hcond
    rw [Finset.mem_singleton] at hx
    rw [hx, ← hcond.1]
    exact hv
  · split at hx
    · exact Finset.mem_of_mem_erase hx
    · exact hx

theorem single_cell_shrink_mem (g : Grid) (i : Nat) (f : Nat → Finset Nat) (j x : Nat)
    (hx : x ∈ cell (single_cell_strategy g i f) j) : x ∈ cell g j := by
  unfold single_cell_strategy at hx
  rcases h : deduce_from_other_values g i f with _ | v
  · rw [h] at hx
    exact hx
  · rw [h] at hx
    exact bomb_shrink_mem (deduce_mem h) hx

theorem buddy_shrink_mem (g : Grid) (i : Nat) (f : Nat → Finset Nat) (j x : Nat)
    (hx : x ∈ cell (buddy_strategy g i f) j) : x ∈ cell g j := by
  rw [cell_buddy] at hx
  split at hx
  · exact (Finset.mem_sdiff.mp hx).1
  · exact hx

-- ----------------------------------
-- unfolding equations for the pass and the loop
-- ----------------------------------

theorem solveGo_nil (g : Grid) (c : Nat) : solveGo g c [] = (g, c) := rfl

theorem solveGo_cons (g : Grid) (c i : Nat) (rest : List Nat) :
    solveGo g c (i :: rest) =
      solveGo (solveCell g i).1 (c + (solveCell g i).2) rest := rfl

theorem solve_def (g : Grid) : solve g = solveGo g 0 (List.range g.length) := rfl

theorem loopGo_zero (g : Grid) (prev : Nat) : loopGo g prev 0 = (g, false) := rfl

theorem loopGo_succ (g : Grid) (prev a : Nat) :
    loopGo g prev (a + 1) =
      if prev = (solve g).2 then ((solve g).1, false)
      else if (solve g).2 = kScaleSq * kScaleSq then ((solve g).1, true)
      else loopGo (solve g).1 (solve g).2 a := rfl

theorem loop_solution_def (g : Grid) (ma : Nat) (vb : Bool) :
    loop_solution g ma vb = loopGo g 0 ma := rfl

theorem initialise_grid_def (seed : List Nat) (grid : Grid) :
    initialise_grid seed grid =
      (List.range seed.length).foldl
        (fun g s => if seed.getD s 0 ≠ 0 then bomb g s (seed.getD s 0) else g) grid := rfl

-- ----------------------------------
-- facts about the instrumented variants
-- ----------------------------------

theorem bomb_inconsistent_eq_false {g : Grid} {i v : Nat} (hv : v ∈ cell g i) :
    bomb_inconsistent g i v = false := by
  unfold bomb_inconsistent
  exact decide_eq_false (fun hn => hn hv)

theorem bomb_inconsistent_eq_true_iff (g : Grid) (i v : Nat) :
    bomb_inconsistent g i v = true ↔ v ∉ cell g i := by
  unfold bomb_inconsistent
  exact decide_eq_true_iff

theorem scsF_fst (g : Grid) (i : Nat) (f : Nat → Finset Nat) :
    (single_cell_strategyF g i f).1 = single_cell_strategy g i f := by
  unfold single_cell_strategyF single_cell_strategy
  rcases h : deduce_from_other_values g i f with _ | v <;> rfl

theorem scsF_snd (g : Grid) (i : Nat) (f : Nat → Finset Nat) :
    (single_cell_strategyF g i f).2 = false := by
  unfold single_cell_strategyF
  rcases h : deduce_from_other_values g i f with _ | v
  · rfl
  · exact bomb_inconsistent_eq_false (deduce_mem h)

theorem solveCellF_fst (g : Grid) (i : Nat) :
    (solveCellF g i).1 = (solveCell g i).1 := by
  by_cases h : (cell g i).card = 1
  · unfold solveCellF
    rw [if_pos h, solveCell_fst_one h]
  · unfold solveCellF
    rw [if_neg h, solveCell_fst_ne h, solveCellElse_def]
    simp only [scsF_fst]

theorem solveCellF_snd1 (g : Grid) (i : Nat) :
    (solveCellF g i).2.1 = (solveCell g i).2 := by
  by_cases h : (cell g i).card = 1
  · unfold solveCellF
    rw [if_pos h, solveCell_snd_one h]
  · unfold solveCellF
    rw [if_neg h, solveCell_snd_ne h]

theorem single_val_mem_of_card_one {g : Grid} {i : Nat} (h : (cell g i).card = 1) :
    single_val (cell g i) ∈ cell g i := by
  rcases Finset.card_eq_one.mp h with ⟨a, ha⟩
  rw [ha, single_val_singleton]
  exact Finset.mem_singleton_self a

theorem solveCellF_snd2 (g : Grid) (i : Nat) :
    (solveCellF g i).2.2 = false := by
  by_cases h : (cell g i).card = 1
  · unfold solveCellF
    rw [if_pos h]
    exact bomb_inconsistent_eq_false (single_val_mem_of_card_one h)
  · unfold solveCellF
    rw [if_neg h]
    simp only [scsF_snd, Bool.or_self]

theorem solveGoF_nil (g : Grid) (c : Nat) (b : Bool) : solveGoF g c b [] = (g, c, b) := rfl

theorem solveGoF_cons (g : Grid) (c : Nat) (b : Bool) (i : Nat) (rest : List Nat) :
    solveGoF g c b (i :: rest) =
      solveGoF (solveCellF g i).1 (c + (solveCellF g i).2.1)
        (b || (solveCellF g i).2.2) rest := rfl

theorem solveF_def (g : Grid) : solveF g = solveGoF g 0 false (List.range g.length) := rfl

theorem solveVisitGo_nil (g : Grid) : solveVisitGo g [] = 0 := rfl

theorem solveVisitGo_cons (g : Grid) (i : Nat) (rest : List Nat) :
    solveVisitGo g (i :: rest) =
      (if (cell g i).card = 1 then 1 else 0) + solveVisitGo (solveCell g i).1 rest := rfl

theorem solveVisitCount_def (g : Grid) :
    solveVisitCount g = solveVisitGo g (List.range g.length) := rfl

theorem loopOutcomeGo_zero (g : Grid) (prev : Nat) :
    loopOutcomeGo g prev 0 = (g, Outcome.exhausted) := rfl

theorem loopOutcomeGo_succ (g : Grid) (prev a : Nat) :
    loopOutcomeGo g prev (a + 1) =
      if prev = (solve g).2 then ((solve g).1, Outcome.stalled)
      else if (solve g).2 = kScaleSq * kScaleSq then ((solve g).1, Outcome.solved)
      else loopOutcomeGo (solve g).1 (solve g).2 a := rfl

theorem loop_outcome_def (g : Grid) (ma : Nat) : loop_outcome g ma = loopOutcomeGo g 0 ma := rfl

-- ----------------------------------
-- unfolding equations for the buddy partition
-- ----------------------------------

theorem deduce_from_buddies_fst (g : Grid) (i : Nat) (f : Nat → Finset Nat) :
    (deduce_from_buddies g i f).1 = buddy_values g i f \ other_values g i f := rfl

theorem deduce_from_buddies_snd (g : Grid) (i : Nat) (f : Nat → Finset Nat) :
    (deduce_from_buddies g i f).2 = (get_buddy_remove i f).2.2 := rfl

theorem buddy_values_def (g : Grid) (i : Nat) (f : Nat → Finset Nat) :
    buddy_values g i f = (get_buddy_remove i f).1.biUnion (fun b => cell g b) := rfl

theorem other_values_def (g : Grid) (i : Nat) (f : Nat → Finset Nat) :
    other_values g i f = (get_buddy_remove i f).2.1.biUnion (fun b => cell g b) := rfl

theorem get_buddy_remove_fst (i : Nat) (f : Nat → Finset Nat) :
    (get_buddy_remove i f).1 = f i ∩ get_neighbours i := rfl

theorem get_buddy_remove_snd1 (i : Nat) (f : Nat → Finset Nat) :
    (get_buddy_remove i f).2.1 = get_neighbours i \ (f i ∩ get_neighbours i) := rfl

theorem get_buddy_remove_snd2 (i : Nat) (f : Nat → Finset Nat) :
    (get_buddy_remove i f).2.2 = f i \ (f i ∩ get_neighbours i) := rfl

-- ----------------------------------
-- bounded arithmetic facts, settled by evaluation
-- ----------------------------------

theorem card_relations : ∀ i < 81,
    (get_row i).card = 9 ∧ (get_column i).card = 9 ∧ (get_neighbours i).card = 9 := by
  decide

theorem card_bombNbhd_erase : ∀ g < 81, ((bombNbhd g).erase g).card = 20 := by decide

theorem Lval_latin : ∀ i < 81, ∀ j < 81, ¬(nbhdA i j ∧ j ≠ i ∧ Lval i = Lval j) := by decide

theorem Lval_range : ∀ i < 81, 1 ≤ Lval i ∧ Lval i ≤ 9 := by decide

-- ----------------------------------
-- concrete evaluations (test vectors)
-- ----------------------------------

theorem solve_gC3_snd : (solve gC3).2 = 2 := by decide

theorem solvedAtStart_gC3 : solvedAtStart gC3 = 1 := by decide

/- From this point on, the solver functions are made irreducible: all further
reasoning goes through the characterisation lemmas proved above, and the
elaborator no longer evaluates these functions symbolically. -/
attribute [irreducible] transformFn get_row get_column get_frame_neighbours
  get_neighbours get_buddy_remove ascList deduce_from_other_values buddy_values
  other_values deduce_from_buddies bombNbhd bomb gentle_remove single_cell_strategy
  buddy_strategy single_val solveCellElse solveCell solveGo solve loopGo
  loop_solution initialise_grid solvedAtStart solveVisitGo solveVisitCount
  loopOutcomeGo loop_outcome single_cell_strategyF solveCellF solveGoF solveF

theorem solveCellElse_shrink_mem (g : Grid) (i : Nat) (j x : Nat)
    (hx : x ∈ cell (solveCellElse g i) j) : x ∈ cell g j := by
  rw [solveCellElse_def] at hx
  exact single_cell_shrink_mem g i get_row j x
    (single_cell_shrink_mem (single_cell_strategy g i get_row) i get_column j x
      (single_cell_shrink_mem (single_cell_strategy (single_cell_strategy g i get_row)
          i get_column) i get_neighbours j x
        (buddy_shrink_mem (single_cell_strategy (single_cell_strategy (single_cell_strategy
            g i get_row) i get_column) i get_neighbours) i get_row j x
          (buddy_shrink_mem (buddy_strategy (single_cell_strategy (single_cell_strategy
              (single_cell_strategy g i get_row) i get_column) i get_neighbours) i get_row)
            i get_column j x hx))))

theorem solveCell_shrink_mem (g : Grid) (i : Nat) (j x : Nat)
    (hx : x ∈ cell (solveCell g i).1 j) : x ∈ cell g j := by
  by_cases h : (cell g i).card = 1
  · rw [solveCell_fst_one h] at hx
    rcases Finset.card_eq_one.mp h with ⟨a, ha⟩
    have hv : single_val (cell g i) ∈ cell g i := by
      rw [ha, single_val_singleton]
      exact Finset.mem_singleton_self a
    exact bomb_shrink_mem hv hx
  · rw [solveCell_fst_ne h] at hx
    exact solveCellElse_shrink_mem g i j x hx

theorem solveGo_length (l : List Nat) (g : Grid) (c : Nat) :
    (solveGo g c l).1.length = g.length := by
  induction l generalizing g c with
  | nil => rw [solveGo_nil]
  | cons i t ih =>
    rw [solveGo_cons, ih, length_solveCell]

theorem solveGo_shrink_mem (l : List Nat) (g : Grid) (c : Nat) (j x : Nat)
    (hx : x ∈ cell (solveGo g c l).1 j) : x ∈ cell g j := by
  induction l generalizing g c with
  | nil => rw [solveGo_nil] at hx; exact hx
  | cons i t ih =>
    rw [solveGo_cons] at hx
    exact solveCell_shrink_mem g i j x (ih _ _ hx)

theorem solveGo_snd_le (l : List Nat) (g : Grid) (c : Nat) :
    (solveGo g c l).2 ≤ c + l.length := by
  induction l generalizing g c with
  | nil => simp [solveGo_nil]
  | cons i t ih =>
    rw [solveGo_cons]
    have h1 := ih (solveCell g i).1 (c + (solveCell g i).2)
    have h2 := solveCell_snd_le g i
    simp only [List.length_cons]
    omega

theorem solve_length (g : Grid) : (solve g).1.length = g.length := by
  rw [solve_def]
  exact solveGo_length _ g 0

theorem solve_shrink_mem (g : Grid) (j x : Nat)
    (hx : x ∈ cell (solve g).1 j) : x ∈ cell g j := by
  rw [solve_def] at hx
  exact solveGo_shrink_mem _ g 0 j x hx

theorem loopGo_length (n : Nat) (g : Grid) (prev : Nat) :
    (loopGo g prev n).1.length = g.length := by
  induction n generalizing g prev with
  | zero => rw [loopGo_zero]
  | succ m ih =>
    rw [loopGo_succ]
    split
    · exact solve_length g
    · split
      · exact solve_length g
      · rw [ih]
        exact solve_length g

theorem loopGo_shrink_mem (n : Nat) (g : Grid) (prev : Nat) (j x : Nat)
    (hx : x ∈ cell (loopGo g prev n).1 j) : x ∈ cell g j := by
  induction n generalizing g prev with
  | zero => rw [loopGo_zero] at hx; exact hx
  | succ m ih =>
    rw [loopGo_succ] at hx
    split at hx
    · exact solve_shrink_mem g j x hx
    · split at hx
      · exact solve_shrink_mem g j x hx
      · exact solve_shrink_mem g j x (ih _ _ hx)

-- ----------------------------------
-- agreement of the instrumented variants
-- ----------------------------------

theorem solveGoF_agree (l : List Nat) (g : Grid) (c : Nat) (b : Bool) :
    (solveGoF g c b l).1 = (solveGo g c l).1 ∧
    (solveGoF g c b l).2.1 = (solveGo g c l).2 ∧
    (solveGoF g c b l).2.2 = b := by
  induction l generalizing g c b with
  | nil =>
    rw [solveGoF_nil, solveGo_nil]
    exact ⟨rfl, rfl, rfl⟩
  | cons i t ih =>
    rw [solveGoF_cons, solveGo_cons, solveCellF_fst, solveCellF_snd1, solveCellF_snd2,
      Bool.or_false]
    exact ih _ _ _

theorem solveF_agree (g : Grid) :
    (solveF g).1 = (solve g).1 ∧ (solveF g).2.1 = (solve g).2 ∧
    (solveF g).2.2 = false := by
  rw [solveF_def, solve_def]
  exact solveGoF_agree _ g 0 false

theorem loopGo_outcome (n : Nat) (g : Grid) (prev : Nat) :
    (loopGo g prev n).1 = (loopOutcomeGo g prev n).1 ∧
    (loopGo g prev n).2 = decide ((loopOutcomeGo g prev n).2 = Outcome.solved) := by
  induction n generalizing g prev with
  | zero =>
    rw [loopGo_zero, loopOutcomeGo_zero]
    exact ⟨rfl, rfl⟩
  | succ m ih =>
    rw [loopGo_succ, loopOutcomeGo_succ]
    by_cases h1 : prev = (solve g).2
    · rw [if_pos h1, if_pos h1]
      exact ⟨rfl, rfl⟩
    · rw [if_neg h1, if_neg h1]
      by_cases h2 : (solve g).2 = kScaleSq * kScaleSq
      · rw [if_pos h2, if_pos h2]
        exact ⟨rfl, rfl⟩
      · rw [if_neg h2, if_neg h2]
        exact ih _ _

theorem solveGo_visit (l : List Nat) (g : Grid) (c : Nat) :
    (solveGo g c l).2 = c + solveVisitGo g l := by
  induction l generalizing g c with
  | nil =>
    rw [solveGo_nil, solveVisitGo_nil]
    rfl
  | cons i t ih =>
    rw [solveGo_cons, solveVisitGo_cons, ih]
    have hd : (solveCell g i).2 = if (cell g i).card = 1 then 1 else 0 := by
      by_cases h : (cell g i).card = 1
      · rw [solveCell_snd_one h, if_pos h]
      · rw [solveCell_snd_ne h, if_neg h]
    rw [hd]
    omega

theorem solve_visit (g : Grid) : (solve g).2 = solveVisitCount g := by
  rw [solve_def, solveVisitCount_def, solveGo_visit]
  omega

-- ----------------------------------
-- idempotence of bomb
-- ----------------------------------

theorem bomb_bomb (g : Grid) (i v : Nat) : bomb (bomb g i v) i v = bomb g i v := by
  have hlen := length_bomb g i v
  apply grid_ext (by rw [length_bomb, hlen])
  intro j hj
  rw [length_bomb, hlen] at hj
  rw [cell_bomb, hlen]
  by_cases h1 : i = j ∧ i < g.length
  · rw [if_pos h1, cell_bomb, if_pos h1]
  · rw [if_neg h1]
    by_cases h2 : j ∈ bombNbhd i
    · rw [if_pos h2, cell_bomb, if_neg h1, if_pos h2, Finset.erase_idem]
    · rw [if_neg h2]

-- ----------------------------------
-- the solved-pass invariant (towards the Latin-square property)
-- ----------------------------------

theorem bombNbhd_symm {i j : Nat} (hi : i < 81) (hj : j < 81)
    (h : j ∈ bombNbhd i) : i ∈ bombNbhd j := by
  rcases (mem_bombNbhd hi).mp h with ⟨hn, _⟩
  exact (mem_bombNbhd hj).mpr ⟨nbhdA_symm hn, hi⟩

theorem bombNbhd_lt {i j : Nat} (hi : i < 81) (h : j ∈ bombNbhd i) : j < 81 :=
  ((mem_bombNbhd hi).mp h).2

/-- the one-step invariant: bombing a cell that carries singleton `{v}`
preserves (and extends) "every processed cell is a singleton whose value is
absent from all its neighbours". -/
theorem bomb_step {g : Grid} {m v : Nat} (hlen : g.length = 81) (hm : m < 81)
    (hv : cell g m = {v}) (hvIcc : v ∈ Finset.Icc 1 9) (P : List Nat)
    (hP : ∀ i ∈ P, i < 81)
    (hInv : ∀ i ∈ P, ∃ w, w ∈ Finset.Icc 1 9 ∧ cell g i = {w} ∧
      ∀ j, j ∈ bombNbhd i → j ≠ i → w ∉ cell g j) :
    ∀ i, i ∈ P ∨ i = m → ∃ w, w ∈ Finset.Icc 1 9 ∧ cell (bomb g m v) i = {w} ∧
      ∀ j, j ∈ bombNbhd i → j ≠ i → w ∉ cell (bomb g m v) j := by
  have hm' : m < g.length := by omega
  -- the fresh part: the invariant holds at m for value v
  have hat : ∃ w, w ∈ Finset.Icc 1 9 ∧ cell (bomb g m v) m = {w} ∧
      ∀ j, j ∈ bombNbhd m → j ≠ m → w ∉ cell (bomb g m v) j := by
    refine ⟨v, hvIcc, ?_, ?_⟩
    · rw [cell_bomb, if_pos ⟨rfl, hm'⟩]
    · intro j hjn hjm
      rw [cell_bomb, if_neg (fun hc => hjm hc.1.symm), if_pos hjn]
      exact Finset.not_mem_erase v _
  intro i hi
  rcases hi with hiP | rfl
  · by_cases him : i = m
    · subst him
      exact hat
    · rcases hInv i hiP with ⟨w, hwIcc, hwcell, hwnbr⟩
      have hi81 := hP i hiP
      have hwm : i ∈ bombNbhd m → w ≠ v := by
        intro hin he
        have hmi : m ∈ bombNbhd i := bombNbhd_symm hm hi81 hin
        have := hwnbr m hmi (fun hx => him hx.symm)
        rw [hv, he] at this
        exact this (Finset.mem_singleton_self v)
      refine ⟨w, hwIcc, ?_, ?_⟩
      · rw [cell_bomb, if_neg (fun hc => him hc.1.symm)]
        by_cases hin : i ∈ bombNbhd m
        · rw [if_pos hin, hwcell]
          rw [Finset.erase_eq_of_not_mem]
          rw [Finset.mem_singleton]
          exact fun he => hwm hin he.symm
        · rw [if_neg hin, hwcell]
      · intro j hjn hji
        rw [cell_bomb]
        by_cases hjm : m = j ∧ m < g.length
        · rw [if_pos hjm]
          have hj2 := hwnbr j hjn hji
          rw [← hjm.1, hv] at hj2
          exact hj2
        · rw [if_neg hjm]
          by_cases hjn2 : j ∈ bombNbhd m
          · rw [if_pos hjn2]
            intro hmem
            exact hwnbr j hjn hji (Finset.mem_of_mem_erase hmem)
          · rw [if_neg hjn2]
            exact hwnbr j hjn hji
  · exact hat

theorem solveGo_inv (l : List Nat) (g : Grid) (c : Nat) (P : List Nat)
    (hlen : g.length = 81)
    (hl : ∀ i ∈ l, i < 81)
    (hP : ∀ i ∈ P, i < 81)
    (hsub : ∀ i, i < 81 → ∀ x, x ∈ cell g i → x ∈ Finset.Icc 1 9)
    (hInv : ∀ i ∈ P, ∃ w, w ∈ Finset.Icc 1 9 ∧ cell g i = {w} ∧
      ∀ j, j ∈ bombNbhd i → j ≠ i → w ∉ cell g j)
    (hcount : (solveGo g c l).2 = c + l.length) :
    ∀ i, i ∈ P ∨ i ∈ l → ∃ w, w ∈ Finset.Icc 1 9 ∧ cell (solveGo g c l).1 i = {w} ∧
      ∀ j, j ∈ bombNbhd i → j ≠ i → w ∉ cell (solveGo g c l).1 j := by
  induction l generalizing g c P with
  | nil =>
    rw [solveGo_nil] at hcount ⊢
    intro i hi
    rcases hi with hi | hi
    · exact hInv i hi
    · exact absurd hi (List.not_mem_nil i)
  | cons m rest ih =>
    rw [solveGo_cons] at hcount ⊢
    -- every scanned cell must have been counted, so cell m is a singleton
    have hle := solveGo_snd_le rest (solveCell g m).1 (c + (solveCell g m).2)
    have hcle := solveCell_snd_le g m
    have hd1 : (solveCell g m).2 = 1 := by
      rw [List.length_cons] at hcount
      omega
    have hcard : (cell g m).card = 1 := by
      by_contra hne
      rw [solveCell_snd_ne hne] at hd1
      omega
    have hm : m < 81 := hl m (List.mem_cons_self m rest)
    rcases Finset.card_eq_one.mp hcard with ⟨v, hv⟩
    have hfst : (solveCell g m).1 = bomb g m v := by
      rw [solveCell_fst_one hcard, hv, single_val_singleton]
    have hvIcc : v ∈ Finset.Icc 1 9 :=
      hsub m hm v (by rw [hv]; exact Finset.mem_singleton_self v)
    have hvmem : v ∈ cell g m := by
      rw [hv]; exact Finset.mem_singleton_self v
    -- invariant after the bomb
    have hstep := bomb_step hlen hm hv hvIcc P hP hInv
    -- recurse on the rest of the scan
    have hlen2 : (solveCell g m).1.length = 81 := by rw [length_solveCell, hlen]
    have hsub2 : ∀ i, i < 81 → ∀ x, x ∈ cell (solveCell g m).1 i →
        x ∈ Finset.Icc 1 9 := by
      intro i hi x hx
      exact hsub i hi x (solveCell_shrink_mem g m i x hx)
    have hP2 : ∀ i ∈ P ++ [m], i < 81 := by
      intro i hi
      rcases List.mem_append.mp hi with hi | hi
      · exact hP i hi
      · rw [List.mem_singleton] at hi
        rw [hi]
        exact hm
    have hInv2 : ∀ i ∈ P ++ [m], ∃ w, w ∈ Finset.Icc 1 9 ∧
        cell (solveCell g m).1 i = {w} ∧
        ∀ j, j ∈ bombNbhd i → j ≠ i → w ∉ cell (solveCell g m).1 j := by
      intro i hi
      rw [hfst]
      refine hstep i ?_
      rcases List.mem_append.mp hi with hi | hi
      · exact Or.inl hi
      · rw [List.mem_singleton] at hi
        exact Or.inr hi
    have hcount2 : (solveGo (solveCell g m).1 (c + (solveCell g m).2) rest).2 =
        (c + (solveCell g m).2) + rest.length := by
      rw [List.length_cons] at hcount
      omega
    have hrec := ih (solveCell g m).1 (c + (solveCell g m).2) (P ++ [m]) hlen2
      (fun i hi => hl i (List.mem_cons_of_mem m hi)) hP2 hsub2 hInv2 hcount2
    intro i hi
    refine hrec i ?_
    rcases hi with hi | hi
    · exact Or.inl (List.mem_append.mpr (Or.inl hi))
    · rcases List.mem_cons.mp hi with hi | hi
      · exact Or.inl (List.mem_append.mpr (Or.inr (List.mem_singleton.mpr hi)))
      · exact Or.inr hi

theorem solve_full {g : Grid} (hlen : g.length = 81)
    (hsub : ∀ i, i < 81 → ∀ x, x ∈ cell g i → x ∈ Finset.Icc 1 9)
    (hfull : (solve g).2 = 81) :
    ∀ i, i < 81 → ∃ w, w ∈ Finset.Icc 1 9 ∧ cell (solve g).1 i = {w} ∧
      ∀ j, j ∈ bombNbhd i → j ≠ i → w ∉ cell (solve g).1 j := by
  rw [solve_def] at hfull ⊢
  rw [hlen] at hfull ⊢
  have h1 : (solveGo g 0 (List.range 81)).2 = 0 + (List.range 81).length := by
    rw [hfull, List.length_range]
  have := solveGo_inv (List.range 81) g 0 [] hlen
    (fun i hi => List.mem_range.mp hi) (fun i hi => absurd hi (List.not_mem_nil i))
    hsub (fun i hi => absurd hi (List.not_mem_nil i)) h1
  intro i hi
  exact this i (Or.inr (List.mem_range.mpr hi))

theorem loopGo_solved (n : Nat) (g : Grid) (prev : Nat) (hlen : g.length = 81)
    (hsub : ∀ i, i < 81 → ∀ x, x ∈ cell g i → x ∈ Finset.Icc 1 9)
    (htrue : (loopGo g prev n).2 = true) :
    ∀ i, i < 81 → ∃ w, w ∈ Finset.Icc 1 9 ∧ cell (loopGo g prev n).1 i = {w} ∧
      ∀ j, j ∈ bombNbhd i → j ≠ i → w ∉ cell (loopGo g prev n).1 j := by
  induction n generalizing g prev with
  | zero =>
    rw [loopGo_zero] at htrue
    exact absurd htrue (by simp)
  | succ m ih =>
    rw [loopGo_succ] at htrue ⊢
    by_cases h1 : prev = (solve g).2
    · rw [if_pos h1] at htrue
      exact absurd htrue (by simp)
    · rw [if_neg h1] at htrue ⊢
      by_cases h2 : (solve g).2 = kScaleSq * kScaleSq
      · rw [if_pos h2] at htrue ⊢
        exact solve_full hlen hsub h2
      · rw [if_neg h2] at htrue ⊢
        have hlen2 : (solve g).1.length = 81 := by rw [solve_length, hlen]
        have hsub2 : ∀ i, i < 81 → ∀ x, x ∈ cell (solve g).1 i →
            x ∈ Finset.Icc 1 9 := by
          intro i hi x hx
          exact hsub i hi x (solve_shrink_mem g i x hx)
        exact ih (solve g).1 (solve g).2 hlen2 hsub2 htrue

-- ----------------------------------
-- pigeonhole: a relation of 9 mutually neighbouring singleton cells carries
-- every value 1..9 exactly once
-- ----------------------------------

theorem latin_relation {G : Grid}
    (hinv : ∀ i, i < 81 → ∃ w, w ∈ Finset.Icc 1 9 ∧ cell G i = {w} ∧
      ∀ j, j ∈ bombNbhd i → j ≠ i → w ∉ cell G j)
    {R : Finset Nat} (hRlt : ∀ j ∈ R, j < 81) (hRcard : R.card = 9)
    (hRrel : ∀ j ∈ R, ∀ k ∈ R, j ≠ k → k ∈ bombNbhd j) :
    ∀ v ∈ Finset.Icc 1 9, ∃! j, j ∈ R ∧ cell G j = {v} := by
  have hval : ∀ j ∈ R, ∃ w, w ∈ Finset.Icc 1 9 ∧ cell G j = {w} :=
    fun j hj => (hinv j (hRlt j hj)).imp (fun w hw => ⟨hw.1, hw.2.1⟩)
  -- the singleton value of each cell of the relation
  have hsv : ∀ j ∈ R, cell G j = {single_val (cell G j)} := by
    intro j hj
    rcases hval j hj with ⟨w, _, hw⟩
    rw [hw, single_val_singleton]
  have hIcc : ∀ j ∈ R, single_val (cell G j) ∈ Finset.Icc 1 9 := by
    intro j hj
    rcases hval j hj with ⟨w, hwIcc, hw⟩
    rw [hw, single_val_singleton]
    exact hwIcc
  have hinj : ∀ j ∈ R, ∀ k ∈ R, j ≠ k →
      single_val (cell G j) ≠ single_val (cell G k) := by
    intro j hj k hk hjk he
    rcases hinv j (hRlt j hj) with ⟨w, _, hwcell, hwnbr⟩
    have h1 := hwnbr k (hRrel j hj k hk hjk) (fun hx => hjk hx.symm)
    rw [hsv k hk, Finset.mem_singleton] at h1
    rw [hwcell, single_val_singleton] at he
    exact h1 he
  -- the image of the relation under the value map is all of 1..9
  have himg : R.image (fun j => single_val (cell G j)) = Finset.Icc 1 9 := by
    apply Finset.eq_of_subset_of_card_le
    · intro x hx
      rcases Finset.mem_image.mp hx with ⟨j, hj, hje⟩
      rw [← hje]
      exact hIcc j hj
    · rw [Finset.card_image_of_injOn, hRcard]
      · rw [Nat.card_Icc]
      · intro j hj k hk he
        by_contra hne
        exact hinj j hj k hk hne he
  intro v hv
  rw [← himg] at hv
  rcases Finset.mem_image.mp hv with ⟨j, hj, hje⟩
  refine ⟨j, ⟨hj, by rw [hsv j hj, hje]⟩, ?_⟩
  intro k hk
  rcases hk with ⟨hkR, hkcell⟩
  by_contra hne
  have : single_val (cell G k) = v := by
    rw [hkcell, single_val_singleton]
  exact hinj k hkR j hj hne (by rw [this, hje])

-- the three relations of a cell index satisfy the hypotheses of latin_relation

theorem row_lt {i j : Nat} (hi : i < 81) (hj : j ∈ get_row i) : j < 81 := by
  have h1 := mem_get_row.mp hj
  unfold sameRow at h1
  omega

theorem row_pair {i : Nat} (hi : i < 81) : ∀ j ∈ get_row i, ∀ k ∈ get_row i,
    j ≠ k → k ∈ bombNbhd j := by
  intro j hj k hk hjk
  have h1 := mem_get_row.mp hj
  have h2 := mem_get_row.mp hk
  unfold sameRow at h1 h2
  exact (mem_bombNbhd (row_lt hi hj)).mpr
    ⟨Or.inr (Or.inl (by unfold sameRow; omega)), row_lt hi hk⟩

theorem col_lt {i j : Nat} (hj : j ∈ get_column i) : j < 81 :=
  (mem_get_column.mp hj).2

theorem col_pair {i : Nat} : ∀ j ∈ get_column i, ∀ k ∈ get_column i,
    j ≠ k → k ∈ bombNbhd j := by
  intro j hj k hk hjk
  have h1 := mem_get_column.mp hj
  have h2 := mem_get_column.mp hk
  rcases h1 with ⟨h1, hj81⟩
  rcases h2 with ⟨h2, hk81⟩
  unfold sameCol at h1 h2
  exact (mem_bombNbhd hj81).mpr
    ⟨Or.inr (Or.inr (by unfold sameCol; omega)), hk81⟩

theorem box_lt {i j : Nat} (hi : i < 81) (hj : j ∈ get_neighbours i) : j < 81 :=
  ((mem_get_neighbours hi).mp hj).2

theorem box_pair {i : Nat} (hi : i < 81) : ∀ j ∈ get_neighbours i,
    ∀ k ∈ get_neighbours i, j ≠ k → k ∈ bombNbhd j := by
  intro j hj k hk hjk
  rcases (mem_get_neighbours hi).mp hj with ⟨⟨h1a, h1b⟩, hj81⟩
  rcases (mem_get_neighbours hi).mp hk with ⟨⟨h2a, h2b⟩, hk81⟩
  refine (mem_bombNbhd hj81).mpr ⟨Or.inl ⟨?_, ?_⟩, hk81⟩ <;> omega

-- ----------------------------------
-- concrete grids: cells and lengths
-- ----------------------------------

theorem length_gEmpty : gEmpty.length = 81 := by
  unfold gEmpty
  exact List.length_replicate 81 _

theorem cell_gEmpty (j : Nat) : cell gEmpty j = ∅ := by
  unfold gEmpty cell
  rw [List.getD_eq_getElem?_getD, List.getElem?_replicate]
  split <;> rfl

theorem length_gSolved : gSolved.length = 81 := by
  unfold gSolved
  rw [List.length_map, List.length_range]

theorem cell_gSolved {j : Nat} (hj : j < 81) : cell gSolved j = {Lval j} := by
  unfold gSolved cell
  rw [List.getD_eq_getElem?_getD, List.getElem?_map, List.getElem?_range hj]
  rfl

-- ----------------------------------
-- no-op lemmas for a pass
-- ----------------------------------

theorem buddy_strategy_noop {g : Grid} {i : Nat} {f : Nat → Finset Nat}
    (h : (deduce_from_buddies g i f).1 = ∅) : buddy_strategy g i f = g := by
  apply grid_ext (length_buddy g i f)
  intro j hj
  rw [cell_buddy, h]
  split
  · exact Finset.sdiff_empty
  · rfl

theorem buddy_values_of_empty {g : Grid} (h : ∀ b, cell g b = ∅)
    (i : Nat) (f : Nat → Finset Nat) : buddy_values g i f = ∅ := by
  rw [buddy_values_def]
  ext x
  simp only [Finset.mem_biUnion, Finset.not_mem_empty, iff_false, not_exists]
  intro b
  rintro ⟨hb1, hb2⟩
  rw [h b] at hb2
  exact absurd hb2 (Finset.not_mem_empty x)

theorem deduce_of_empty {g : Grid} {i : Nat} (h : cell g i = ∅)
    (f : Nat → Finset Nat) : deduce_from_other_values g i f = none := by
  apply deduce_eq_none
  rw [h]
  intro x hx
  exact absurd hx (Finset.not_mem_empty x)

theorem solveCell_empty {g : Grid} (h : ∀ b, cell g b = ∅) (i : Nat) :
    solveCell g i = (g, 0) := by
  have hcard : ¬(cell g i).card = 1 := by
    rw [h i]
    simp
  have hbv : ∀ g2 : Grid, (∀ b, cell g2 b = ∅) → ∀ f, (deduce_from_buddies g2 i f).1 = ∅ := by
    intro g2 h2 f
    rw [deduce_from_buddies_fst, buddy_values_of_empty h2, Finset.empty_sdiff]
  have hfst : (solveCell g i).1 = g := by
    rw [solveCell_fst_ne hcard, solveCellElse_def]
    rw [single_cell_of_none (deduce_of_empty (h i) get_row)]
    rw [single_cell_of_none (deduce_of_empty (h i) get_column)]
    rw [single_cell_of_none (deduce_of_empty (h i) get_neighbours)]
    rw [buddy_strategy_noop (hbv g h get_row)]
    rw [buddy_strategy_noop (hbv g h get_column)]
  have hsnd : (solveCell g i).2 = 0 := solveCell_snd_ne hcard
  exact Prod.ext hfst hsnd

theorem solveGo_empty {g : Grid} (h : ∀ b, cell g b = ∅) (l : List Nat) (c : Nat) :
    solveGo g c l = (g, c) := by
  induction l generalizing c with
  | nil => rw [solveGo_nil]
  | cons i t ih =>
    rw [solveGo_cons, solveCell_empty h i]
    show solveGo g (c + 0) t = (g, c)
    rw [Nat.add_zero]
    exact ih c

theorem solve_gEmpty : solve gEmpty = (gEmpty, 0) := by
  rw [solve_def]
  exact solveGo_empty cell_gEmpty _ 0

theorem loop_outcome_gEmpty : (loop_outcome gEmpty 1).2 = Outcome.stalled := by
  rw [loop_outcome_def, show (1 : Nat) = 0 + 1 from rfl, loopOutcomeGo_succ, solve_gEmpty]
  rw [if_pos rfl]

-- ----------------------------------
-- the solved grid is a fixed point of the pass
-- ----------------------------------

theorem bomb_gSolved {i : Nat} (hi : i < 81) : bomb gSolved i (Lval i) = gSolved := by
  apply grid_ext (length_bomb gSolved i (Lval i))
  intro j hj
  rw [length_bomb, length_gSolved] at hj
  rw [cell_bomb, length_gSolved]
  by_cases h1 : i = j ∧ i < 81
  · rw [if_pos h1, cell_gSolved hj, h1.1]
  · rw [if_neg h1]
    by_cases h2 : j ∈ bombNbhd i
    · rw [if_pos h2, cell_gSolved hj]
      have hij : i ≠ j := fun he => h1 ⟨he, hi⟩
      have hn := (mem_bombNbhd hi).mp h2
      have hLv : Lval i ≠ Lval j :=
        fun he => Lval_latin i hi j hj ⟨hn.1, fun he2 => hij he2.symm, he⟩
      rw [Finset.erase_eq_of_not_mem (by rw [Finset.mem_singleton]; exact hLv)]
    · rw [if_neg h2]

theorem solveCell_gSolved {i : Nat} (hi : i < 81) : solveCell gSolved i = (gSolved, 1) := by
  have hcell := cell_gSolved hi
  have hcard : (cell gSolved i).card = 1 := by
    rw [hcell]
    exact Finset.card_singleton _
  have hfst : (solveCell gSolved i).1 = gSolved := by
    rw [solveCell_fst_one hcard, hcell, single_val_singleton]
    exact bomb_gSolved hi
  have hsnd := solveCell_snd_one hcard
  exact Prod.ext hfst hsnd

theorem solveGo_gSolved (l : List Nat) (h : ∀ i ∈ l, i < 81) (c : Nat) :
    solveGo gSolved c l = (gSolved, c + l.length) := by
  induction l generalizing c with
  | nil =>
    rw [solveGo_nil, List.length_nil, Nat.add_zero]
  | cons i t ih =>
    rw [solveGo_cons, solveCell_gSolved (h i (List.mem_cons_self i t))]
    show solveGo gSolved (c + 1) t = (gSolved, c + (i :: t).length)
    rw [ih (fun k hk => h k (List.mem_cons_of_mem i hk)) (c + 1), List.length_cons]
    rw [Nat.add_assoc, Nat.add_comm 1 t.length]

theorem solve_gSolved : solve gSolved = (gSolved, 81) := by
  rw [solve_def, length_gSolved]
  rw [solveGo_gSolved (List.range 81) (fun i hi => List.mem_range.mp hi) 0]
  rw [List.length_range, Nat.zero_add]

theorem loop_gSolved (vb : Bool) : loop_solution gSolved 10 vb = (gSolved, true) := by
  rw [loop_solution_def, show (10 : Nat) = 9 + 1 from rfl, loopGo_succ, solve_gSolved]
  rw [if_neg (by decide), if_pos (by decide)]

-- ----------------------------------
-- arithmetic witnesses inside the relations (towards the one-given grid)
-- ----------------------------------

theorem three_avoid (b x y : Nat) :
    ∃ j, (j = b ∨ j = b + 1 ∨ j = b + 2) ∧ j ≠ x ∧ j ≠ y := by
  by_cases h1 : b = x ∨ b = y
  · by_cases h2 : b + 1 = x ∨ b + 1 = y
    · exact ⟨b + 2, Or.inr (Or.inr rfl), by omega, by omega⟩
    · exact ⟨b + 1, Or.inr (Or.inl rfl), by omega, by omega⟩
  · exact ⟨b, Or.inl rfl, by omega, by omega⟩

theorem three_avoid9 (b x y : Nat) :
    ∃ j, (j = b ∨ j = b + 9 ∨ j = b + 18) ∧ j ≠ x ∧ j ≠ y := by
  by_cases h1 : b = x ∨ b = y
  · by_cases h2 : b + 9 = x ∨ b + 9 = y
    · exact ⟨b + 18, Or.inr (Or.inr rfl), by omega, by omega⟩
    · exact ⟨b + 9, Or.inr (Or.inl rfl), by omega, by omega⟩
  · exact ⟨b, Or.inl rfl, by omega, by omega⟩

/-- in the row of `i` there is a cell that is neither `i` nor `g` -/
theorem sole_witness_row {g i : Nat} (hi : i < 81) :
    ∃ j, j < 81 ∧ sameRow i j ∧ ¬(j = i) ∧ ¬(j = g) := by
  obtain ⟨j, hj, hx, hy⟩ := three_avoid (9 * (i / 9)) i g
  exact ⟨j, by omega, by unfold sameRow; omega, hx, hy⟩

/-- in the column of `i` there is a cell that is neither `i` nor `g` -/
theorem sole_witness_col {g i : Nat} (hi : i < 81) :
    ∃ j, j < 81 ∧ sameCol i j ∧ ¬(j = i) ∧ ¬(j = g) := by
  obtain ⟨j, hj, hx, hy⟩ := three_avoid9 (i % 9) i g
  exact ⟨j, by omega, by unfold sameCol; omega, hx, hy⟩

/-- in the box of `i` there is a cell that is neither `i` nor `g` -/
theorem sole_witness_box {g i : Nat} (hi : i < 81) :
    ∃ j, j < 81 ∧ sameBox i j ∧ ¬(j = i) ∧ ¬(j = g) := by
  obtain ⟨j, hj, hx, hy⟩ := three_avoid (27 * (i / 27) + 3 * (i / 3 % 3)) i g
  refine ⟨j, by omega, ?_, hx, hy⟩
  unfold sameBox
  omega

/-- if `i` is outside the neighbourhood of `g`, the row of `i` has a cell other
than `i` that is also outside the neighbourhood of `g` -/
theorem sole_witness2_row {g i : Nat} (hg : g < 81) (hi : i < 81)
    (hn : ¬nbhdA g i) :
    ∃ j, j < 81 ∧ sameRow i j ∧ ¬(j = i) ∧ ¬nbhdA g j := by
  unfold nbhdA sameBox sameRow sameCol at hn
  by_cases hb : i / 27 = g / 27
  · have hz : ¬(i / 3 % 3 = g / 3 % 3) := by omega
    obtain ⟨j, hj, hx, _⟩ := three_avoid (9 * (i / 9) + 3 * (i / 3 % 3)) i i
    refine ⟨j, by omega, by unfold sameRow; omega, hx, ?_⟩
    unfold nbhdA sameBox sameRow sameCol
    omega
  · obtain ⟨j, hj, hx, hy⟩ := three_avoid (9 * (i / 9)) i (9 * (i / 9) + g % 9)
    refine ⟨j, by omega, by unfold sameRow; omega, hx, ?_⟩
    unfold nbhdA sameBox sameRow sameCol
    omega

/-- if `i` is outside the neighbourhood of `g`, the column of `i` has a cell
other than `i` that is also outside the neighbourhood of `g` -/
theorem sole_witness2_col {g i : Nat} (hg : g < 81) (hi : i < 81)
    (hn : ¬nbhdA g i) :
    ∃ j, j < 81 ∧ sameCol i j ∧ ¬(j = i) ∧ ¬nbhdA g j := by
  unfold nbhdA sameBox sameRow sameCol at hn
  by_cases hz : i / 3 % 3 = g / 3 % 3
  · have hb : ¬(i / 27 = g / 27) := by omega
    obtain ⟨j, hj, hx, _⟩ := three_avoid9 (i % 9 + 27 * (i / 27)) i i
    refine ⟨j, by omega, by unfold sameCol; omega, hx, ?_⟩
    unfold nbhdA sameBox sameRow sameCol
    omega
  · obtain ⟨j, hj, hx, hy⟩ := three_avoid9 (i % 9) i (9 * (g / 9) + i % 9)
    refine ⟨j, by omega, by unfold sameCol; omega, hx, ?_⟩
    unfold nbhdA sameBox sameRow sameCol
    omega

/-- if `i` is outside the neighbourhood of `g`, the box of `i` has a cell other
than `i` that is also outside the neighbourhood of `g` -/
theorem sole_witness2_box {g i : Nat} (hg : g < 81) (hi : i < 81)
    (hn : ¬nbhdA g i) :
    ∃ j, j < 81 ∧ sameBox i j ∧ ¬(j = i) ∧ ¬nbhdA g j := by
  unfold nbhdA sameBox sameRow sameCol at hn
  obtain ⟨j, hj, hx, hy⟩ :=
    three_avoid (9 * (i / 9) + 3 * (i % 9 / 3)) i (9 * (i / 9) + g % 9)
  refine ⟨j, by omega, ?_, hx, ?_⟩
  · unfold sameBox
    omega
  · unfold nbhdA sameBox sameRow sameCol
    omega

/-- the box-minus-row "others" cells of `i` contain a cell other than `g` -/
theorem buddy_witness_row {g i : Nat} (hi : i < 81) :
    ∃ jo, jo < 81 ∧ sameBox i jo ∧ ¬sameRow i jo ∧ ¬(jo = g) := by
  obtain ⟨j, hj, hx, hy⟩ := three_avoid9 (27 * (i / 27) + i % 9) i g
  refine ⟨j, by omega, ?_, ?_, hy⟩
  · unfold sameBox
    omega
  · unfold sameRow
    omega

/-- the box-minus-column "others" cells of `i` contain a cell other than `g` -/
theorem buddy_witness_col {g i : Nat} (hi : i < 81) :
    ∃ jo, jo < 81 ∧ sameBox i jo ∧ ¬sameCol i jo ∧ ¬(jo = g) := by
  obtain ⟨j, hj, hx, hy⟩ := three_avoid (9 * (i / 9) + 3 * (i % 9 / 3)) i g
  refine ⟨j, by omega, ?_, ?_, hy⟩
  · unfold sameBox
    omega
  · unfold sameCol
    omega

/-- for the row relation at `i`: either some box-minus-row "others" cell is `g`
itself or lies outside the neighbourhood of `g`, or every row-minus-box
"removeFrom" cell is a proper neighbour of `g` -/
theorem buddy_witness2_row {g i : Nat} (hg : g < 81) (hi : i < 81) :
    (∃ jo, jo < 81 ∧ (sameBox i jo ∧ ¬sameRow i jo) ∧ (jo = g ∨ ¬nbhdA g jo)) ∨
    (∀ r, r < 81 → sameRow i r → ¬sameBox i r → ¬(r = g) ∧ nbhdA g r) := by
  by_cases hbox : g / 27 = i / 27 ∧ g / 3 % 3 = i / 3 % 3
  · by_cases hrow : g / 9 = i / 9
    · right
      intro r hr hrRow hrBox
      unfold sameRow at hrRow
      unfold sameBox at hrBox
      constructor
      · intro he
        apply hrBox
        omega
      · unfold nbhdA sameRow
        omega
    · left
      refine ⟨g, hg, ⟨hbox, ?_⟩, Or.inl rfl⟩
      unfold sameRow
      omega
  · left
    obtain ⟨r, hr, hrx, hry⟩ := three_avoid (3 * (i / 27)) (i / 9) (g / 9)
    obtain ⟨c, hc, hcx, _⟩ := three_avoid (3 * (i % 9 / 3)) (g % 9) (g % 9)
    refine ⟨9 * r + c, by omega, ⟨?_, ?_⟩, Or.inr ?_⟩
    · unfold sameBox
      omega
    · unfold sameRow
      omega
    · unfold nbhdA sameBox sameRow sameCol
      omega

/-- for the column relation at `i`: either some box-minus-column "others" cell
is `g` itself or lies outside the neighbourhood of `g`, or every
column-minus-box "removeFrom" cell is a proper neighbour of `g` -/
theorem buddy_witness2_col {g i : Nat} (hg : g < 81) (hi : i < 81) :
    (∃ jo, jo < 81 ∧ (sameBox i jo ∧ ¬sameCol i jo) ∧ (jo = g ∨ ¬nbhdA g jo)) ∨
    (∀ r, r < 81 → sameCol i r → ¬sameBox i r → ¬(r = g) ∧ nbhdA g r) := by
  by_cases hbox : g / 27 = i / 27 ∧ g / 3 % 3 = i / 3 % 3
  · by_cases hcol : g % 9 = i % 9
    · right
      intro r hr hrCol hrBox
      unfold sameCol at hrCol
      unfold sameBox at hrBox
      constructor
      · intro he
        apply hrBox
        omega
      · unfold nbhdA sameCol
        omega
    · left
      refine ⟨g, hg, ⟨hbox, ?_⟩, Or.inl rfl⟩
      unfold sameCol
      omega
  · left
    obtain ⟨r, hr, hrx, _⟩ := three_avoid (3 * (i / 27)) (g / 9) (g / 9)
    obtain ⟨c, hc, hcx, hcy⟩ := three_avoid (3 * (i % 9 / 3)) (i % 9) (g % 9)
    refine ⟨9 * r + c, by omega, ⟨?_, ?_⟩, Or.inr ?_⟩
    · unfold sameBox
      omega
    · unfold sameCol
      omega
    · unfold nbhdA sameBox sameRow sameCol
      omega

-- ----------------------------------
-- the one-given grid: initialisation and the first pass
-- ----------------------------------

theorem length_default_grid : default_grid.length = 81 := by
  unfold default_grid
  rw [List.length_replicate]
  rfl

theorem potentials_eq : (Finset.range kScaleSq).image (fun r => r + 1) =
    Finset.Icc 1 9 := by
  ext x
  simp only [Finset.mem_image, Finset.mem_range, Finset.mem_Icc]
  constructor
  · rintro ⟨r, hr, rfl⟩
    have h9 : kScaleSq = 9 := rfl
    omega
  · intro h
    refine ⟨x - 1, ?_, by omega⟩
    have h9 : kScaleSq = 9 := rfl
    omega

theorem cell_default_grid (j : Nat) :
    cell default_grid j = if j < 81 then Finset.Icc 1 9 else ∅ := by
  unfold default_grid cell
  rw [List.getD_eq_getElem?_getD, List.getElem?_replicate]
  by_cases hj : j < 81
  · rw [if_pos (show j < kScaleSq * kScaleSq from hj), if_pos hj, Option.getD_some]
    exact potentials_eq
  · rw [if_neg (show ¬j < kScaleSq * kScaleSq from hj), if_neg hj]
    rfl

theorem cell_bombDefault {g v : Nat} (hg : g < 81) :
    ∀ j, cell (bomb default_grid g v) j = oneGivenCell g v j := by
  intro j
  rw [cell_bomb, length_default_grid]
  unfold oneGivenCell
  by_cases h1 : g = j ∧ g < 81
  · rw [if_pos h1, if_pos h1.1.symm]
  · have hjg : ¬(j = g) := by
      intro he
      exact h1 ⟨he.symm, hg⟩
    rw [if_neg h1, if_neg hjg]
    by_cases h2 : j ∈ bombNbhd g
    · rcases (mem_bombNbhd hg).mp h2 with ⟨hnb, hj81⟩
      rw [if_pos h2, if_pos ⟨hj81, hnb⟩, cell_default_grid, if_pos hj81]
    · have hnand : ¬(j < 81 ∧ nbhdA g j) := by
        intro hand
        exact h2 ((mem_bombNbhd hg).mpr ⟨hand.2, hand.1⟩)
      rw [if_neg h2, if_neg hnand, cell_default_grid]

theorem init_fold (seed : List Nat) (g v : Nat) (hv : v ≠ 0)
    (hgv : seed.getD g 0 = v)
    (h0 : ∀ s, s < seed.length → s = g ∨ seed.getD s 0 = 0) :
    ∀ (l : List Nat), (∀ s ∈ l, s < seed.length) → ∀ (acc : Grid),
      l.foldl (fun G s => if seed.getD s 0 ≠ 0 then bomb G s (seed.getD s 0) else G)
          acc =
        if g ∈ l then bomb acc g v else acc := by
  intro l
  induction l with
  | nil =>
    intro _ acc
    rw [if_neg (List.not_mem_nil g)]
    rfl
  | cons s t ih =>
    intro hl acc
    simp only [List.foldl_cons]
    by_cases hs : s = g
    · subst hs
      have hcond : seed.getD s 0 ≠ 0 := by
        rw [hgv]
        exact hv
      rw [if_pos hcond, hgv, ih (fun x hx => hl x (List.mem_cons_of_mem s hx))]
      by_cases hgt : s ∈ t
      · rw [if_pos hgt, if_pos (List.mem_cons_self s t), bomb_bomb]
      · rw [if_neg hgt, if_pos (List.mem_cons_self s t)]
    · have hs0 : seed.getD s 0 = 0 :=
        (h0 s (hl s (List.mem_cons_self s t))).resolve_left hs
      rw [if_neg (by rw [hs0]; exact fun h => h rfl),
        ih (fun x hx => hl x (List.mem_cons_of_mem s hx))]
      by_cases hgt : g ∈ t
      · rw [if_pos hgt, if_pos (List.mem_cons_of_mem s hgt)]
      · rw [if_neg hgt, if_neg (by
          intro hm
          rcases List.mem_cons.mp hm with he | he
          · exact hs he.symm
          · exact hgt he)]

theorem initialise_one {seed : List Nat} {g v : Nat}
    (hg : g < 81) (hv : v ≠ 0) (hlen : seed.length = 81)
    (hgv : seed.getD g 0 = v)
    (h0 : ∀ s, s < 81 → s = g ∨ seed.getD s 0 = 0) :
    initialise_grid seed default_grid = bomb default_grid g v := by
  rw [initialise_grid_def,
    init_fold seed g v hv hgv (fun s hs => h0 s (by omega))
      (List.range seed.length) (fun s hs => List.mem_range.mp hs) default_grid,
    if_pos (List.mem_range.mpr (by omega))]

-- the single-cell strategy is a no-op on the one-given grid

theorem deduce_oneGiven {G : Grid} {g v i : Nat} {rel : Nat → Prop}
    (hc : ∀ j, cell G j = oneGivenCell g v j)
    (hg : g < 81) (hi : i < 81) (hne : ¬(i = g))
    (f : Nat → Finset Nat)
    (hf : ∀ j, j ∈ f i ↔ rel j ∧ j < 81)
    (w1 : ∃ j, j < 81 ∧ rel j ∧ ¬(j = i) ∧ ¬(j = g))
    (w2 : ¬nbhdA g i → ∃ j, j < 81 ∧ rel j ∧ ¬(j = i) ∧ ¬nbhdA g j) :
    deduce_from_other_values G i f = none := by
  apply deduce_eq_none
  intro x hx
  rw [hc i] at hx
  unfold oneGivenCell at hx
  rw [if_neg hne] at hx
  by_cases hni : nbhdA g i
  · rw [if_pos ⟨hi, hni⟩] at hx
    obtain ⟨j, hj81, hrel, hji, hjg⟩ := w1
    refine Finset.mem_biUnion.mpr
      ⟨j, Finset.mem_filter.mpr ⟨(hf j).mpr ⟨hrel, hj81⟩, fun he => hji he.symm⟩, ?_⟩
    rw [hc j]
    unfold oneGivenCell
    rw [if_neg hjg]
    by_cases hnj : j < 81 ∧ nbhdA g j
    · rw [if_pos hnj]
      exact hx
    · rw [if_neg hnj, if_pos hj81]
      exact Finset.mem_of_mem_erase hx
  · rw [if_neg (fun hand => hni hand.2), if_pos hi] at hx
    obtain ⟨j, hj81, hrel, hji, hnj⟩ := w2 hni
    have hjg : ¬(j = g) := fun he => hnj (by rw [he]; exact nbhdA_self g)
    refine Finset.mem_biUnion.mpr
      ⟨j, Finset.mem_filter.mpr ⟨(hf j).mpr ⟨hrel, hj81⟩, fun he => hji he.symm⟩, ?_⟩
    rw [hc j]
    unfold oneGivenCell
    rw [if_neg hjg, if_neg (fun hand => hnj hand.2), if_pos hj81]
    exact hx

-- the buddy strategy is a no-op on the one-given grid

theorem buddy_oneGiven {G : Grid} {g v i : Nat} {lineRel : Nat → Prop}
    (hc : ∀ j, cell G j = oneGivenCell g v j)
    (hg : g < 81) (hi : i < 81) (hv : v ∈ Finset.Icc 1 9)
    (f : Nat → Finset Nat)
    (hf : ∀ j, j ∈ f i ↔ lineRel j ∧ j < 81)
    (wo : ∃ jo, jo < 81 ∧ sameBox i jo ∧ ¬lineRel jo ∧ ¬(jo = g))
    (w2 : (∃ jo, jo < 81 ∧ (sameBox i jo ∧ ¬lineRel jo) ∧ (jo = g ∨ ¬nbhdA g jo)) ∨
          (∀ r, r < 81 → lineRel r → ¬sameBox i r → ¬(r = g) ∧ nbhdA g r)) :
    buddy_strategy G i f = G := by
  have hsubIcc : ∀ j, cell G j ⊆ Finset.Icc 1 9 := by
    intro j
    rw [hc j]
    unfold oneGivenCell
    split
    · exact Finset.singleton_subset_iff.mpr hv
    · split
      · exact Finset.erase_subset _ _
      · split
        · exact Finset.Subset.refl _
        · exact Finset.empty_subset _
  have hmem_others : ∀ jo, jo < 81 → sameBox i jo → ¬lineRel jo →
      jo ∈ (get_buddy_remove i f).2.1 := by
    intro jo h81 hsb hnl
    rw [get_buddy_remove_snd1]
    refine Finset.mem_sdiff.mpr ⟨(mem_get_neighbours hi).mpr ⟨hsb, h81⟩, ?_⟩
    intro hint
    exact hnl ((hf jo).mp (Finset.mem_inter.mp hint).1).1
  have hov : ∀ jo, jo < 81 → sameBox i jo → ¬lineRel jo → ∀ x, x ∈ cell G jo →
      x ∈ other_values G i f := by
    intro jo h81 hsb hnl x hx
    rw [other_values_def]
    exact Finset.mem_biUnion.mpr ⟨jo, hmem_others jo h81 hsb hnl, hx⟩
  have hxv : ∀ x, x ∈ (deduce_from_buddies G i f).1 → x = v := by
    intro x hx
    rw [deduce_from_buddies_fst] at hx
    rcases Finset.mem_sdiff.mp hx with ⟨hxb, hxo⟩
    by_contra hne
    apply hxo
    obtain ⟨jo, h81, hsb, hnl, hjg⟩ := wo
    refine hov jo h81 hsb hnl x ?_
    rw [hc jo]
    unfold oneGivenCell
    rw [if_neg hjg]
    have hxIcc : x ∈ Finset.Icc 1 9 := by
      rw [buddy_values_def] at hxb
      rcases Finset.mem_biUnion.mp hxb with ⟨b, _, hxcell⟩
      exact hsubIcc b hxcell
    by_cases hnj : jo < 81 ∧ nbhdA g jo
    · rw [if_pos hnj]
      exact Finset.mem_erase.mpr ⟨hne, hxIcc⟩
    · rw [if_neg hnj, if_pos h81]
      exact hxIcc
  have hkey : ∀ x, x ∈ (deduce_from_buddies G i f).1 →
      ∀ r, r ∈ (deduce_from_buddies G i f).2 → x ∉ cell G r := by
    intro x hx r hr
    have hxe := hxv x hx
    subst hxe
    rcases w2 with ⟨jo, h81, ⟨hsb, hnl⟩, hor⟩ | hall
    · exfalso
      rw [deduce_from_buddies_fst] at hx
      rcases Finset.mem_sdiff.mp hx with ⟨_, hxo⟩
      apply hxo
      refine hov jo h81 hsb hnl _ ?_
      rw [hc jo]
      unfold oneGivenCell
      rcases hor with rfl | hnb
      · rw [if_pos rfl]
        exact Finset.mem_singleton_self _
      · have hjg : ¬(jo = g) := fun he => hnb (by rw [he]; exact nbhdA_self g)
        rw [if_neg hjg, if_neg (fun hand => hnb hand.2), if_pos h81]
        exact hv
    · rw [deduce_from_buddies_snd, get_buddy_remove_snd2] at hr
      rcases Finset.mem_sdiff.mp hr with ⟨hrf, hrni⟩
      rcases (hf r).mp hrf with ⟨hrl, hr81⟩
      have hrsb : ¬sameBox i r := by
        intro hsb
        exact hrni
          (Finset.mem_inter.mpr ⟨hrf, (mem_get_neighbours hi).mpr ⟨hsb, hr81⟩⟩)
      rcases hall r hr81 hrl hrsb with ⟨hrg, hrnb⟩
      rw [hc r]
      unfold oneGivenCell
      rw [if_neg hrg, if_pos ⟨hr81, hrnb⟩]
      exact Finset.not_mem_erase _ _
  apply grid_ext (length_buddy G i f)
  intro j hj
  rw [cell_buddy]
  by_cases hjrf : j ∈ (deduce_from_buddies G i f).2
  · rw [if_pos hjrf]
    ext x
    simp only [Finset.mem_sdiff]
    constructor
    · exact fun h => h.1
    · intro hx
      exact ⟨hx, fun hmem => hkey x hmem j hjrf hx⟩
  · rw [if_neg hjrf]

-- the whole else-branch is a no-op on the one-given grid

theorem solveCellElse_oneGiven {G : Grid} {g v i : Nat}
    (hc : ∀ j, cell G j = oneGivenCell g v j)
    (hg : g < 81) (hi : i < 81) (hne : ¬(i = g)) (hv : v ∈ Finset.Icc 1 9) :
    solveCellElse G i = G := by
  have hfrow : ∀ j, j ∈ get_row i ↔ sameRow i j ∧ j < 81 := by
    intro j
    rw [mem_get_row]
    constructor
    · intro h
      refine ⟨h, ?_⟩
      unfold sameRow at h
      omega
    · exact fun h => h.1
  have hfcol : ∀ j, j ∈ get_column i ↔ sameCol i j ∧ j < 81 := fun j =>
    mem_get_column
  have hfbox : ∀ j, j ∈ get_neighbours i ↔ sameBox i j ∧ j < 81 := fun j =>
    mem_get_neighbours hi
  have h1 : single_cell_strategy G i get_row = G :=
    single_cell_of_none (deduce_oneGiven hc hg hi hne get_row hfrow
      (sole_witness_row hi) (fun hn => sole_witness2_row hg hi hn))
  have h2 : single_cell_strategy G i get_column = G :=
    single_cell_of_none (deduce_oneGiven hc hg hi hne get_column hfcol
      (sole_witness_col hi) (fun hn => sole_witness2_col hg hi hn))
  have h3 : single_cell_strategy G i get_neighbours = G :=
    single_cell_of_none (deduce_oneGiven hc hg hi hne get_neighbours hfbox
      (sole_witness_box hi) (fun hn => sole_witness2_box hg hi hn))
  have h4 : buddy_strategy G i get_row = G :=
    buddy_oneGiven hc hg hi hv get_row hfrow (buddy_witness_row hi)
      (buddy_witness2_row hg hi)
  have h5 : buddy_strategy G i get_column = G :=
    buddy_oneGiven hc hg hi hv get_column hfcol (buddy_witness_col hi)
      (buddy_witness2_col hg hi)
  rw [solveCellElse_def, h1, h2, h3, h4, h5]

-- `bomb` is idempotent on the one-given grid at the given cell

theorem bomb_oneGiven {G : Grid} {g v : Nat}
    (hc : ∀ j, cell G j = oneGivenCell g v j)
    (hlen : G.length = 81) (hg : g < 81) :
    bomb G g v = G := by
  apply grid_ext (length_bomb G g v)
  intro j hj
  rw [cell_bomb]
  by_cases h1 : g = j ∧ g < G.length
  · obtain ⟨rfl, -⟩ := h1
    rw [if_pos ⟨rfl, by omega⟩, hc g]
    unfold oneGivenCell
    rw [if_pos rfl]
  · rw [if_neg h1]
    by_cases h2 : j ∈ bombNbhd g
    · rcases (mem_bombNbhd hg).mp h2 with ⟨hnb, hj81⟩
      have hjg : ¬(j = g) := fun he => h1 ⟨he.symm, by omega⟩
      rw [if_pos h2, hc j]
      unfold oneGivenCell
      rw [if_neg hjg, if_pos ⟨hj81, hnb⟩, Finset.erase_idem]
    · rw [if_neg h2]

theorem solveCell_oneGiven {G : Grid} {g v i : Nat}
    (hc : ∀ j, cell G j = oneGivenCell g v j)
    (hlen : G.length = 81) (hg : g < 81) (hi : i < 81) (hv : v ∈ Finset.Icc 1 9) :
    solveCell G i = (G, if i = g then 1 else 0) := by
  by_cases hig : i = g
  · subst hig
    have hcell : cell G i = {v} := by
      rw [hc i]
      unfold oneGivenCell
      rw [if_pos rfl]
    have hcard : (cell G i).card = 1 := by
      rw [hcell]
      exact Finset.card_singleton _
    have hfst : (solveCell G i).1 = G := by
      rw [solveCell_fst_one hcard, hcell, single_val_singleton]
      exact bomb_oneGiven hc hlen hg
    have hsnd : (solveCell G i).2 = 1 := solveCell_snd_one hcard
    rw [if_pos rfl]
    exact Prod.ext hfst hsnd
  · have hcard : ¬(cell G i).card = 1 := by
      rw [hc i]
      unfold oneGivenCell
      rw [if_neg hig]
      by_cases hni : i < 81 ∧ nbhdA g i
      · rw [if_pos hni, Finset.card_erase_of_mem hv, Nat.card_Icc]
        omega
      · rw [if_neg hni, if_pos hi, Nat.card_Icc]
        omega
    have hfst : (solveCell G i).1 = G := by
      rw [solveCell_fst_ne hcard]
      exact solveCellElse_oneGiven hc hg hi hig hv
    have hsnd : (solveCell G i).2 = 0 := solveCell_snd_ne hcard
    rw [if_neg hig]
    exact Prod.ext hfst hsnd

theorem solveGo_oneGiven {G : Grid} {g v : Nat}
    (hc : ∀ j, cell G j = oneGivenCell g v j)
    (hlen : G.length = 81) (hg : g < 81) (hv : v ∈ Finset.Icc 1 9)
    (l : List Nat) :
    ∀ c, (∀ s ∈ l, s < 81) → l.Nodup →
      solveGo G c l = (G, c + if g ∈ l then 1 else 0) := by
  induction l with
  | nil =>
    intro c _ _
    rw [solveGo_nil, if_neg (List.not_mem_nil g)]
    rfl
  | cons i t ih =>
    intro c hl hnd
    rcases List.nodup_cons.mp hnd with ⟨hit, hndt⟩
    have h := solveCell_oneGiven hc hlen hg (hl i (List.mem_cons_self i t)) hv
    have h1 : (solveCell G i).1 = G := by rw [h]
    have h2 : (solveCell G i).2 = if i = g then 1 else 0 := by rw [h]
    rw [solveGo_cons, h1, h2,
      ih (c + if i = g then 1 else 0) (fun s hs => hl s (List.mem_cons_of_mem i hs))
        hndt]
    by_cases hig : i = g
    · subst hig
      rw [if_pos rfl, if_neg hit, if_pos (List.mem_cons_self i t)]
    · rw [if_neg hig]
      by_cases hgt : g ∈ t
      · rw [if_pos hgt, if_pos (List.mem_cons_of_mem i hgt)]
      · rw [if_neg hgt, if_neg (by
          intro hm
          rcases List.mem_cons.mp hm with he | he
          · exact hig he.symm
          · exact hgt he)]

theorem solve_oneGiven {G : Grid} {g v : Nat}
    (hc : ∀ j, cell G j = oneGivenCell g v j)
    (hlen : G.length = 81) (hg : g < 81) (hv : v ∈ Finset.Icc 1 9) :
    solve G = (G, 1) := by
  rw [solve_def, hlen,
    solveGo_oneGiven hc hlen hg hv (List.range 81) 0
      (fun s hs => List.mem_range.mp hs) (List.nodup_range 81),
    if_pos (List.mem_range.mpr hg)]

-- ----------------------------------
-- the claims
-- ----------------------------------

/-- C1: if `loop_solution` returns `true` for an 81-cell grid whose candidate
sets are drawn from `1..9`, then in the returned grid every cell's candidate
set has exactly one element and, for every cell index, each of its row,
column and box relations contains each value of `1..9` in exactly one cell (a
full Latin square). -/
theorem C1_solved_latin (g : Grid) (ma : Nat) (vb : Bool)
    (hlen : g.length = 81)
    (hsub : ∀ i, i < 81 → ∀ x, x ∈ cell g i → x ∈ Finset.Icc 1 9)
    (htrue : (loop_solution g ma vb).2 = true) :
    (∀ i, i < 81 → (cell (loop_solution g ma vb).1 i).card = 1) ∧
    (∀ i, i < 81 → ∀ v ∈ Finset.Icc 1 9,
      (∃! j, j ∈ get_row i ∧ cell (loop_solution g ma vb).1 j = {v}) ∧
      (∃! j, j ∈ get_column i ∧ cell (loop_solution g ma vb).1 j = {v}) ∧
      (∃! j, j ∈ get_neighbours i ∧ cell (loop_solution g ma vb).1 j = {v})) := by
  rw [loop_solution_def] at htrue ⊢
  have hinv := loopGo_solved ma g 0 hlen hsub htrue
  constructor
  · intro i hi
    rcases hinv i hi with ⟨w, _, hw, _⟩
    rw [hw]
    exact Finset.card_singleton _
  · intro i hi v hv
    rcases card_relations i hi with ⟨hcr, hcc, hcb⟩
    exact ⟨latin_relation hinv (fun j hj => row_lt hi hj) hcr (row_pair hi) v hv,
      latin_relation hinv (fun j hj => col_lt hj) hcc col_pair v hv,
      latin_relation hinv (fun j hj => box_lt hi hj) hcb (box_pair hi) v hv⟩

theorem C1_witness : (cell (loop_solution gSolved 10 false).1 0).card = 1 :=
  (C1_solved_latin gSolved 10 false length_gSolved
    (fun i hi x hx => by
      rw [cell_gSolved hi, Finset.mem_singleton] at hx
      rw [hx]
      exact Finset.mem_Icc.mpr ⟨(Lval_range i hi).1, (Lval_range i hi).2⟩)
    (by rw [loop_gSolved false])).1 0 (by decide)

/-- C2: after `bomb grid i v` the candidate set of `i` is exactly `{v}`, `v`
is absent from the candidate set of every other cell of
`row(i) ∪ column(i) ∪ box(i)`, and the candidate set of every cell outside
that union is unchanged. -/
theorem C2_bomb_effect (grid : Grid) (i v : Nat) (hi : i < grid.length)
    (hi81 : i < 81) :
    cell (bomb grid i v) i = {v} ∧
    (∀ j, j ∈ get_row i ∪ get_column i ∪ get_neighbours i → ¬(j = i) →
      v ∉ cell (bomb grid i v) j) ∧
    (∀ j, j ∉ get_row i ∪ get_column i ∪ get_neighbours i →
      cell (bomb grid i v) j = cell grid j) := by
  have hU : ∀ j, j ∈ get_row i ∪ get_column i ∪ get_neighbours i ↔
      j ∈ bombNbhd i := by
    intro j
    rw [mem_bombNbhd hi81]
    simp only [Finset.mem_union, mem_get_row, mem_get_column,
      mem_get_neighbours hi81]
    unfold nbhdA
    constructor
    · rintro ((h | ⟨h, hlt⟩) | ⟨h, hlt⟩)
      · refine ⟨Or.inr (Or.inl h), ?_⟩
        unfold sameRow at h
        omega
      · exact ⟨Or.inr (Or.inr h), hlt⟩
      · exact ⟨Or.inl h, hlt⟩
    · rintro ⟨(h | h | h), hlt⟩
      · exact Or.inr ⟨h, hlt⟩
      · exact Or.inl (Or.inl h)
      · exact Or.inl (Or.inr ⟨h, hlt⟩)
  refine ⟨?_, ?_, ?_⟩
  · rw [cell_bomb, if_pos ⟨rfl, hi⟩]
  · intro j hj hji
    rw [cell_bomb, if_neg (fun hand => hji hand.1.symm), if_pos ((hU j).mp hj)]
    exact Finset.not_mem_erase v _
  · intro j hj
    have hiU : i ∈ get_row i ∪ get_column i ∪ get_neighbours i :=
      Finset.mem_union.mpr (Or.inl (Finset.mem_union.mpr (Or.inl
        (mem_get_row.mpr rfl))))
    rw [cell_bomb, if_neg (fun hand => hj (by rw [← hand.1]; exact hiU)),
      if_neg (fun hmem => hj ((hU j).mpr hmem))]

theorem C2_witness :
    0 < default_grid.length ∧ cell (bomb default_grid 0 5) 0 = {5} :=
  ⟨by rw [length_default_grid]; omega,
   (C2_bomb_effect default_grid 0 5 (by rw [length_default_grid]; omega)
     (by omega)).1⟩

/-- C3 counterexample: on the grid `gC3` one pass of `solve` returns 2 while
only one cell was a singleton when the pass began — the count includes the
cell first narrowed to a singleton by a bomb fired earlier in the same pass,
so `solve` does not return the start-of-pass solved count. -/
theorem C3_counterexample : ¬((solve gC3).2 = solvedAtStart gC3) := by
  rw [solve_gC3_snd, solvedAtStart_gC3]
  decide

/-- C3 (amended): one propagation pass returns the number of scan positions
whose cell is a singleton at the moment the pass reaches them — cells first
narrowed to a singleton by deductions made earlier within the same pass
included — not the count of cells already solved when the pass began. -/
theorem C3_visit_time_count (g : Grid) : (solve g).2 = solveVisitCount g :=
  solve_visit g

/-- C4 counterexample: a stalled run (`gEmpty` with budget 1) and a
budget-exhausted run (`gEmpty` with budget 0) return the same value from
`loop_solution` — the two terminations are not distinguishable in its
result. -/
theorem C4_counterexample :
    (loop_outcome gEmpty 1).2 = Outcome.stalled ∧
    (loop_outcome gEmpty 0).2 = Outcome.exhausted ∧
    (loop_solution gEmpty 1 false).2 = (loop_solution gEmpty 0 false).2 := by
  refine ⟨loop_outcome_gEmpty, ?_, ?_⟩
  · rw [loop_outcome_def, loopOutcomeGo_zero]
  · rw [loop_solution_def, loop_solution_def, loopGo_zero,
      show (1 : Nat) = 0 + 1 from rfl, loopGo_succ, solve_gEmpty, if_pos rfl]

/-- C4 (amended): `loop_solution` does not distinguish the Stalled and
Exhausted outcomes: its boolean result is `true` exactly when the outcome is
Solved, so both failure outcomes map to the same value `false`. -/
theorem C4_outcomes_conflated (g : Grid) (ma : Nat) (vb : Bool) :
    (loop_solution g ma vb).2 =
      decide ((loop_outcome g ma).2 = Outcome.solved) := by
  rw [loop_solution_def, loop_outcome_def]
  exact (loopGo_outcome ma g 0).2

/-- C5: candidate sets only shrink: for every grid and cell, the candidate
set after the whole propagation loop — and after each single pass — is a
subset of the one before, and its cardinality is non-increasing. -/
theorem C5_monotone_shrink (g : Grid) (ma : Nat) (vb : Bool) (j : Nat) :
    (cell (loop_solution g ma vb).1 j ⊆ cell g j ∧
     (cell (loop_solution g ma vb).1 j).card ≤ (cell g j).card) ∧
    (cell (solve g).1 j ⊆ cell g j ∧
     (cell (solve g).1 j).card ≤ (cell g j).card) := by
  have h1 : cell (loop_solution g ma vb).1 j ⊆ cell g j := by
    intro x hx
    rw [loop_solution_def] at hx
    exact loopGo_shrink_mem ma g 0 j x hx
  have h2 : cell (solve g).1 j ⊆ cell g j := fun x hx => solve_shrink_mem g j x hx
  exact ⟨⟨h1, Finset.card_le_card h1⟩, ⟨h2, Finset.card_le_card h2⟩⟩

/-- C6: the buddy strategy removes values only from the candidate sets of
`removeFrom` cells; every value it removes was, before the call, present in
some buddy cell's candidate set and absent from every "others" cell's
candidate set; and `remove_values` equals the union over buddies minus the
union over others. -/
theorem C6_buddy_sound (g : Grid) (i : Nat) (f : Nat → Finset Nat) :
    (∀ r, r ∉ (get_buddy_remove i f).2.2 →
      cell (buddy_strategy g i f) r = cell g r) ∧
    (∀ r x, x ∈ cell g r → x ∉ cell (buddy_strategy g i f) r →
      (∃ b ∈ (get_buddy_remove i f).1, x ∈ cell g b) ∧
      (∀ o ∈ (get_buddy_remove i f).2.1, x ∉ cell g o)) ∧
    (deduce_from_buddies g i f).1 = buddy_values g i f \ other_values g i f := by
  have hsnd : (deduce_from_buddies g i f).2 = (get_buddy_remove i f).2.2 :=
    deduce_from_buddies_snd g i f
  refine ⟨?_, ?_, deduce_from_buddies_fst g i f⟩
  · intro r hr
    rw [cell_buddy, hsnd, if_neg hr]
  · intro r x hx hnx
    have hrem : x ∈ (deduce_from_buddies g i f).1 := by
      rw [cell_buddy] at hnx
      by_cases hr : r ∈ (deduce_from_buddies g i f).2
      · rw [if_pos hr] at hnx
        by_contra hxr
        exact hnx (Finset.mem_sdiff.mpr ⟨hx, hxr⟩)
      · rw [if_neg hr] at hnx
        exact absurd hx hnx
    rw [deduce_from_buddies_fst] at hrem
    rcases Finset.mem_sdiff.mp hrem with ⟨hbv, hov⟩
    constructor
    · rw [buddy_values_def] at hbv
      rcases Finset.mem_biUnion.mp hbv with ⟨b, hb, hxb⟩
      exact ⟨b, hb, hxb⟩
    · intro o ho hxo
      apply hov
      rw [other_values_def]
      exact Finset.mem_biUnion.mpr ⟨o, ho, hxo⟩

/-- C7: `bomb` signals an inconsistency exactly when the asserted value is
absent from the cell's current candidate set, and still completes: it
produces the same final grid as in the consistent case (the same grid with
the value first inserted into the cell), with the pivot cell reset to the
singleton of the value. -/
theorem C7_inconsistency_signal (grid : Grid) (i v : Nat)
    (hi : i < grid.length) (hi81 : i < 81) :
    (bomb_inconsistent grid i v = true ↔ v ∉ cell grid i) ∧
    bomb (grid.set i (insert v (cell grid i))) i v = bomb grid i v ∧
    cell (bomb grid i v) i = {v} := by
  refine ⟨bomb_inconsistent_eq_true_iff grid i v, ?_, ?_⟩
  · apply grid_ext (by rw [length_bomb, length_bomb, List.length_set])
    intro j hj
    rw [length_bomb, List.length_set] at hj
    rw [cell_bomb, cell_bomb, List.length_set]
    by_cases h1 : i = j ∧ i < grid.length
    · rw [if_pos h1, if_pos h1]
    · rw [if_neg h1, if_neg h1]
      have hij : ¬(i = j) := fun he => h1 ⟨he, hi⟩
      have hcs : cell (grid.set i (insert v (cell grid i))) j = cell grid j := by
        rw [cell_set, if_neg (fun hand => hij hand.1)]
      by_cases h2 : j ∈ bombNbhd i
      · rw [if_pos h2, if_pos h2, hcs]
      · rw [if_neg h2, if_neg h2, hcs]
  · rw [cell_bomb, if_pos ⟨rfl, hi⟩]

theorem C7_witness : 3 < gEmpty.length ∧ cell (bomb gEmpty 3 7) 3 = {7} :=
  ⟨by rw [length_gEmpty]; omega,
   (C7_inconsistency_signal gEmpty 3 7 (by rw [length_gEmpty]; omega)
     (by omega)).2.2⟩

/-- C8: the Fix operation is idempotent: bombing the same (index, value)
twice in succession yields exactly the grid of a single bomb. -/
theorem C8_bomb_idempotent (grid : Grid) (i v : Nat) :
    bomb (bomb grid i v) i v = bomb grid i v :=
  bomb_bomb grid i v

/-- C9: for a seed holding a single given value `v` at cell `g` and zero
everywhere else, after initialisation and the first propagation pass: cell
`g`'s candidate set is `{v}`; each of the 20 other cells of `g`'s
neighbourhood (row ∪ column ∪ box) holds `{1..9}` minus `v`; and every cell
outside the neighbourhood still holds the full `{1..9}`, unaffected. -/
theorem C9_one_given_frame (seed : List Nat) (g v : Nat)
    (hg : g < 81) (hv : v ∈ Finset.Icc 1 9)
    (hlen : seed.length = 81) (hgv : seed.getD g 0 = v)
    (h0 : ∀ s, s < 81 → s = g ∨ seed.getD s 0 = 0) :
    cell (solve (initialise_grid seed default_grid)).1 g = {v} ∧
    ((bombNbhd g).erase g).card = 20 ∧
    (∀ j, j ∈ (bombNbhd g).erase g →
      cell (solve (initialise_grid seed default_grid)).1 j =
        (Finset.Icc 1 9).erase v) ∧
    (∀ j, j < 81 → j ∉ bombNbhd g →
      cell (solve (initialise_grid seed default_grid)).1 j = Finset.Icc 1 9) := by
  have hv1 : v ≠ 0 := by
    rcases Finset.mem_Icc.mp hv with ⟨h1, _⟩
    omega
  have hinit : initialise_grid seed default_grid = bomb default_grid g v :=
    initialise_one hg hv1 hlen hgv h0
  have hc := cell_bombDefault (v := v) hg
  have hlenb : (bomb default_grid g v).length = 81 := by
    rw [length_bomb, length_default_grid]
  have hsol : solve (bomb default_grid g v) = (bomb default_grid g v, 1) :=
    solve_oneGiven hc hlenb hg hv
  have hfst : (solve (initialise_grid seed default_grid)).1 =
      bomb default_grid g v := by
    rw [hinit, hsol]
  rw [hfst]
  refine ⟨?_, card_bombNbhd_erase g hg, ?_, ?_⟩
  · rw [hc g]
    unfold oneGivenCell
    rw [if_pos rfl]
  · intro j hj
    rcases Finset.mem_erase.mp hj with ⟨hjg, hjn⟩
    rcases (mem_bombNbhd hg).mp hjn with ⟨hnb, hj81⟩
    rw [hc j]
    unfold oneGivenCell
    rw [if_neg hjg, if_pos ⟨hj81, hnb⟩]
  · intro j hj81 hjn
    have hjg : ¬(j = g) := fun he => hjn (by rw [he]; exact mem_bombNbhd_self hg)
    have hnb : ¬nbhdA g j := fun hn => hjn ((mem_bombNbhd hg).mpr ⟨hn, hj81⟩)
    rw [hc j]
    unfold oneGivenCell
    rw [if_neg hjg, if_neg (fun hand => hnb hand.2), if_pos hj81]

theorem C9_witness :
    cell (solve (initialise_grid ((List.replicate 81 0).set 40 5)
      default_grid)).1 40 = {5} :=
  (C9_one_given_frame ((List.replicate 81 0).set 40 5) 40 5 (by decide)
    (by decide) (by decide) (by decide) (by decide)).1

/-- C10: inside a propagation pass every `bomb` call picks its value from the
target cell's own candidate set, so the inconsistency branch of `bomb` never
fires from within `solve`: the instrumented pass reports `false` for every
input grid while computing the same grid and the same count as `solve`. -/
theorem C10_no_inconsistency_in_solve (grid : Grid) :
    (solveF grid).2.2 = false ∧
    (solveF grid).1 = (solve grid).1 ∧
    (solveF grid).2.1 = (solve grid).2 :=
  ⟨(solveF_agree grid).2.2, (solveF_agree grid).1, (solveF_agree grid).2.1⟩
